import Mathlib

/-!
Shallow embedding of the CSC210 circuit-simulation core
(`src/modules/shared/shared-circuit-simulator.js`) and proofs about it.

JavaScript values flowing through component pins are dynamically typed:
booleans normally, but `importCircuit` can store arrays (and `undefined`
appears for out-of-range reads).  We therefore model pin values with a
small JS-value type `Val` and translate the source's truthiness-based
operators (`&&`, `||`, `!`, `!==`) explicitly.

Components are identified by their `id` string.  JavaScript connections
hold object references to their endpoint components; the embedding
resolves endpoints by first-match id lookup, which coincides with the
reference semantics whenever component ids are unique (the graph
invariant stated in the specification's data model).
-/

/-- A JavaScript value as it appears on component pins: a boolean, an
array, or `undefined`.  Array identity (reference equality) is not
modelled; no theorem below compares two array values with `!==`. -/
inductive Val : Type where
  | b (v : Bool)
  | arr (l : List Val)
  | undefined

mutual

/-- Decidable equality for `Val` (the nested `List Val` prevents
automatic derivation). -/
def valDecEq : (a b : Val) → Decidable (a = b)
  | .b x, .b y =>
    if h : x = y then .isTrue (by rw [h])
    else .isFalse (fun hc => by cases hc; exact h rfl)
  | .b _, .arr _ => .isFalse (fun hc => Val.noConfusion hc)
  | .b _, .undefined => .isFalse (fun hc => Val.noConfusion hc)
  | .arr _, .b _ => .isFalse (fun hc => Val.noConfusion hc)
  | .arr l, .arr m =>
    match valListDecEq l m with
    | .isTrue h => .isTrue (by rw [h])
    | .isFalse h => .isFalse (fun hc => by cases hc; exact h rfl)
  | .arr _, .undefined => .isFalse (fun hc => Val.noConfusion hc)
  | .undefined, .b _ => .isFalse (fun hc => Val.noConfusion hc)
  | .undefined, .arr _ => .isFalse (fun hc => Val.noConfusion hc)
  | .undefined, .undefined => .isTrue rfl

/-- Decidable equality for lists of `Val`. -/
def valListDecEq : (l m : List Val) → Decidable (l = m)
  | [], [] => .isTrue rfl
  | [], _ :: _ => .isFalse (fun hc => List.noConfusion hc)
  | _ :: _, [] => .isFalse (fun hc => List.noConfusion hc)
  | a :: l, b :: m =>
    match valDecEq a b with
    | .isFalse h => .isFalse (fun hc => by cases hc; exact h rfl)
    | .isTrue h1 =>
      match valListDecEq l m with
      | .isTrue h2 => .isTrue (by rw [h1, h2])
      | .isFalse h2 => .isFalse (fun hc => by cases hc; exact h2 rfl)

end

instance : DecidableEq Val := valDecEq

instance {ε α : Type} [DecidableEq ε] [DecidableEq α] : DecidableEq (Except ε α) :=
  fun x y =>
    match x, y with
    | .ok a, .ok c =>
      if h : a = c then .isTrue (by rw [h])
      else .isFalse (fun hc => by cases hc; exact h rfl)
    | .error e, .error f =>
      if h : e = f then .isTrue (by rw [h])
      else .isFalse (fun hc => by cases hc; exact h rfl)
    | .ok _, .error _ => .isFalse (fun hc => Except.noConfusion hc)
    | .error _, .ok _ => .isFalse (fun hc => Except.noConfusion hc)

/-- JavaScript truthiness: `false` and `undefined` are falsy, any array
(object) is truthy. -/
def Val.truthy : Val → Bool
  | .b v => v
  | .arr _ => true
  | .undefined => false

/-- JavaScript `x && y`: returns `x` when `x` is falsy, else `y`. -/
def jsAnd (x y : Val) : Val := if x.truthy then y else x

/-- JavaScript `x || y`: returns `x` when `x` is truthy, else `y`. -/
def jsOr (x y : Val) : Val := if x.truthy then x else y

/-- JavaScript `!x`: boolean negation of truthiness. -/
def jsNot (x : Val) : Val := .b (!x.truthy)

/-- JavaScript strict inequality `x !== y` restricted to the values the
simulator produces.  Values of different runtime types are unequal;
booleans compare by value.  Two arrays compare by reference in
JavaScript; the embedding returns `true` (distinct references), and no
theorem below ever reaches that case. -/
def jsNeq : Val → Val → Bool
  | .b x, .b y => x != y
  | .undefined, .undefined => false
  | _, _ => true

/-- JavaScript array read `a[i]`: `undefined` when out of range or when
the value is not an array. -/
def Val.idx : Val → Nat → Val
  | .arr l, i => l.getD i .undefined
  | _, _ => .undefined

/-- JavaScript array write `a[i] = v`, extending with holes
(`undefined`) when `i` is beyond the current length. -/
def jsListSet (l : List Val) (i : Nat) (v : Val) : List Val :=
  if i < l.length then l.set i v
  else l ++ List.replicate (i - l.length) Val.undefined ++ [v]

/-- JavaScript property write `a[i] = v` on a pin value: writes into an
array, and is a no-op on primitives (assigning an index to a boolean or
`undefined` does nothing observable). -/
def Val.setIdx : Val → Nat → Val → Val
  | .arr l, i, v => .arr (jsListSet l i v)
  | x, _, _ => x

/-- JavaScript `String.prototype.toUpperCase` (ASCII, as used on the
type tags). -/
def jsUpper (s : String) : String := ⟨s.data.map Char.toUpper⟩

/-- JavaScript `options.label || defaultLabel` (the empty string is
falsy). -/
def jsLabelOr (o : Option String) (dflt : String) : String :=
  match o with
  | some s => if s = "" then dflt else s
  | none => dflt

/-- A circuit component.  The record is the union of the fields the
JavaScript classes use: gates carry `inputs`/`output`, `INPUT`/`OUTPUT`
pegs carry `value` (their `inputs` stay the base class's empty array and
their `output` stays `undefined`).  Canvas-only fields (width, height)
are omitted; they are never read by the simulation core. -/
structure Component where
  id : String
  ctype : String
  x : Int
  y : Int
  label : Option String
  inputs : Val
  output : Val
  value : Val
  selected : Bool
deriving DecidableEq

/-- `new ANDGate(id, x, y)`. -/
def ANDGate.new (id : String) (x y : Int) : Component :=
  { id := id, ctype := "AND", x := x, y := y, label := none,
    inputs := .arr [.b false, .b false], output := .b false,
    value := .undefined, selected := false }

/-- `new ORGate(id, x, y)`. -/
def ORGate.new (id : String) (x y : Int) : Component :=
  { id := id, ctype := "OR", x := x, y := y, label := none,
    inputs := .arr [.b false, .b false], output := .b false,
    value := .undefined, selected := false }

/-- `new XORGate(id, x, y)`. -/
def XORGate.new (id : String) (x y : Int) : Component :=
  { id := id, ctype := "XOR", x := x, y := y, label := none,
    inputs := .arr [.b false, .b false], output := .b false,
    value := .undefined, selected := false }

/-- `new NOTGate(id, x, y)`. -/
def NOTGate.new (id : String) (x y : Int) : Component :=
  { id := id, ctype := "NOT", x := x, y := y, label := none,
    inputs := .arr [.b false], output := .b false,
    value := .undefined, selected := false }

/-- `new InputComponent(id, label, x, y)`: `inputs` stays the base
class's empty array, `value` starts `false`. -/
def InputComponent.new (id : String) (label : String) (x y : Int) : Component :=
  { id := id, ctype := "INPUT", x := x, y := y, label := some label,
    inputs := .arr [], output := .undefined,
    value := .b false, selected := false }

/-- `new OutputComponent(id, label, x, y)`. -/
def OutputComponent.new (id : String) (label : String) (x y : Int) : Component :=
  { id := id, ctype := "OUTPUT", x := x, y := y, label := some label,
    inputs := .arr [], output := .undefined,
    value := .b false, selected := false }

/-- `component.compute()`: returns the updated component together with
the JavaScript return value.  Gates store the result in `this.output`
and return it; `INPUT`/`OUTPUT` return `this.value` without mutation.
The final branch corresponds to the abstract base class (which throws);
no component built by `addComponent` reaches it. -/
def Component.compute (c : Component) : Component × Val :=
  if c.ctype = "AND" then
    let o := jsAnd (c.inputs.idx 0) (c.inputs.idx 1)
    ({ c with output := o }, o)
  else if c.ctype = "OR" then
    let o := jsOr (c.inputs.idx 0) (c.inputs.idx 1)
    ({ c with output := o }, o)
  else if c.ctype = "XOR" then
    let o := Val.b (jsNeq (c.inputs.idx 0) (c.inputs.idx 1))
    ({ c with output := o }, o)
  else if c.ctype = "NOT" then
    let o := jsNot (c.inputs.idx 0)
    ({ c with output := o }, o)
  else if c.ctype = "INPUT" then (c, c.value)
  else if c.ctype = "OUTPUT" then (c, c.value)
  else (c, .undefined)

/-- `InputComponent.toggle()`: flips `this.value` (JavaScript `!`
coerces through truthiness). -/
def Component.toggle (c : Component) : Component :=
  { c with value := jsNot c.value }

/-- A connection, translated from `CircuitConnection`.  JavaScript
stores references `from`/`to`; the embedding stores the endpoint ids and
resolves them by first-match lookup (identical behaviour for unique
ids).  `fromOutput` is recorded but, exactly as in the source's
`simulate`, never read during evaluation. -/
structure Conn where
  fromId : String
  fromOutput : Nat
  toId : String
  toInput : Nat
  value : Val
deriving DecidableEq

/-- The simulator's graph state: `components`, `connections`, and the
current selection (by id, mirroring the `selectedComponent` reference).
Canvas and animation state are out of scope. -/
structure State where
  components : List Component
  connections : List Conn
  selectedId : Option String
deriving DecidableEq

/-- The state of a freshly constructed `CircuitSimulator`. -/
def emptyState : State := { components := [], connections := [], selectedId := none }

/-- `this.components.find(c => c.id === id)` (also `getComponentById`). -/
def findComp (l : List Component) (id : String) : Option Component :=
  l.find? (fun c => c.id == id)

/-- Mutation through a JavaScript object reference: update the component
with the given id in place.  (For unique ids this is exactly the
reference semantics.) -/
def updateComp (l : List Component) (id : String) (f : Component → Component) : List Component :=
  l.map (fun c => if c.id = id then f c else c)

/-- `CircuitSimulator.addComponent(type, id, x, y, options)`: dispatches
on `type.toUpperCase()`, throwing `Unknown component type` for a type
outside the six handled cases, and pushes the new component.  There is
no duplicate-id check in the source. -/
def addComponent (s : State) (type id : String) (x y : Int) (label : Option String) :
    Except String (State × Component) :=
  let t := jsUpper type
  let comp? : Option Component :=
    if t = "AND" then some (ANDGate.new id x y)
    else if t = "OR" then some (ORGate.new id x y)
    else if t = "XOR" then some (XORGate.new id x y)
    else if t = "NOT" then some (NOTGate.new id x y)
    else if t = "INPUT" then some (InputComponent.new id (jsLabelOr label "IN") x y)
    else if t = "OUTPUT" then some (OutputComponent.new id (jsLabelOr label "OUT") x y)
    else none
  match comp? with
  | some c => .ok ({ s with components := s.components ++ [c] }, c)
  | none => .error ("Unknown component type: " ++ type)

/-- `CircuitSimulator.removeComponent(id)`: no-op when `findIndex`
misses; otherwise filters out every connection whose endpoint has the
id, splices the component out, and clears a matching selection. -/
def removeComponent (s : State) (id : String) : State :=
  match s.components.findIdx? (fun c => c.id == id) with
  | none => s
  | some i =>
    { components := s.components.eraseIdx i,
      connections := s.connections.filter (fun conn => conn.fromId != id && conn.toId != id),
      selectedId := if s.selectedId = some id then none else s.selectedId }

/-- `CircuitSimulator.connectComponents(fromId, fromOutput, toId,
toInput)`: returns `null` (here `none`) and leaves the graph unchanged
when either endpoint id is absent. -/
def connectComponents (s : State) (fromId : String) (fromOutput : Nat)
    (toId : String) (toInput : Nat) : State × Option Conn :=
  match findComp s.components fromId, findComp s.components toId with
  | some _, some _ =>
    let c : Conn := { fromId := fromId, fromOutput := fromOutput,
                      toId := toId, toInput := toInput, value := .b false }
    ({ s with connections := s.connections ++ [c] }, some c)
  | _, _ => (s, none)

/-- Accumulator of the depth-first `visit` in `topologicalSort`: the
`visited` id set and the ordered `result`. -/
structure VState where
  visited : List String
  result : List Component
deriving DecidableEq

/-- The recursive `visit` closure of `topologicalSort`, with explicit
fuel standing in for JavaScript's unbounded call stack (the fuel-
stability theorem below shows `components.length` fuel already yields
the stable result).  The id is marked visited on entry, the components
feeding this one are visited (connection insertion order), then the
component is appended. -/
def visit (comps : List Component) (conns : List Conn) :
    Nat → Component → VState → VState
  | 0, _, st => st
  | fuel + 1, c, st =>
    if st.visited.contains c.id then st
    else
      let st1 : VState := ⟨c.id :: st.visited, st.result⟩
      let srcs := (conns.filter (fun k => k.toId == c.id)).filterMap
        (fun k => findComp comps k.fromId)
      let st2 := srcs.foldl (fun acc d => visit comps conns fuel d acc) st1
      ⟨st2.visited, st2.result ++ [c]⟩

/-- `topologicalSort` at a given fuel: visit every component in
insertion order with a shared visited set. -/
def topologicalSortFuel (comps : List Component) (conns : List Conn) (fuel : Nat) :
    List Component :=
  (comps.foldl (fun st c => visit comps conns fuel c st) ⟨[], []⟩).result

/-- `CircuitSimulator.topologicalSort()`. -/
def topologicalSort (s : State) : List Component :=
  topologicalSortFuel s.components s.connections s.components.length

/-- Evaluation pass 1 of `simulate`: every non-`INPUT` component in
topological order calls `compute()`, storing its output. -/
def simulatePhase1 (sorted : List Component) (comps : List Component) :
    List Component :=
  sorted.foldl
    (fun cs c =>
      if c.ctype = "INPUT" then cs
      else updateComp cs c.id (fun d => d.compute.1))
    comps

/-- One step of the connection-update pass of `simulate`:
`connection.value = connection.from.compute()` (which re-runs and
re-stores the source's output), then the value is written into the
target's indexed input slot, or via `setValue` when the target is an
`OUTPUT`. -/
def connStep (acc : List Component × List Conn) (conn : Conn) :
    List Component × List Conn :=
  match findComp acc.1 conn.fromId with
  | none => (acc.1, acc.2 ++ [conn])
  | some f =>
    let fv := f.compute
    let cs1 := updateComp acc.1 conn.fromId (fun _ => fv.1)
    let conn1 := { conn with value := fv.2 }
    let cs2 :=
      match findComp cs1 conn.toId with
      | none => cs1
      | some t =>
        if t.ctype = "OUTPUT" then
          updateComp cs1 conn.toId (fun u => { u with value := fv.2 })
        else
          updateComp cs1 conn.toId
            (fun u => { u with inputs := u.inputs.setIdx conn.toInput fv.2 })
    (cs2, acc.2 ++ [conn1])

/-- `CircuitSimulator.simulate()`: topological sort, per-component
evaluation, then the connection-update walk in insertion order. -/
def simulate (s : State) : State :=
  let sorted := topologicalSort s
  let comps1 := simulatePhase1 sorted s.components
  let stepped := s.connections.foldl connStep (comps1, [])
  { s with components := stepped.1, connections := stepped.2 }

/-- Toggle the `INPUT` component with the given id (the click handler's
`clickedComponent.toggle()`). -/
def toggleInput (s : State) (id : String) : State :=
  { s with components := updateComp s.components id Component.toggle }

/-- Serialized component record produced by `exportCircuit`. -/
structure ExpComponent where
  id : String
  type : String
  x : Int
  y : Int
  value : Val
  label : Option String
deriving DecidableEq

/-- Serialized connection record produced by `exportCircuit`. -/
structure ExpConn where
  fromId : String
  fromOutput : Nat
  toId : String
  toInput : Nat
deriving DecidableEq

/-- Serialized circuit. -/
structure ExpCircuit where
  components : List ExpComponent
  connections : List ExpConn
deriving DecidableEq

/-- `CircuitSimulator.exportCircuit()`: note the source's
`value: c.value || c.inputs` — a falsy `value` (in particular the
boolean `false` of an off `INPUT`) serializes as the component's
`inputs` array instead. -/
def exportCircuit (s : State) : ExpCircuit :=
  { components := s.components.map (fun c =>
      { id := c.id, type := c.ctype, x := c.x, y := c.y,
        value := jsOr c.value c.inputs, label := c.label }),
    connections := s.connections.map (fun c =>
      { fromId := c.fromId, fromOutput := c.fromOutput,
        toId := c.toId, toInput := c.toInput }) }

/-- `CircuitSimulator.clear()` (graph part). -/
def clearState (_s : State) : State := emptyState

/-- `CircuitSimulator.importCircuit(data)`: clears the graph, re-adds
the components in listed order (restoring `value` for `INPUT`
components and `inputs` for the rest whenever the serialized `value` is
not `undefined`), then re-adds the connections in listed order.  The
source ends with `this.render()`; it does not run an evaluation pass. -/
def importCircuit (s : State) (d : ExpCircuit) : Except String State := do
  let s0 := clearState s
  let s1 ← d.components.foldlM
    (fun st cd => do
      let (st1, comp) ← addComponent st cd.type cd.id cd.x cd.y cd.label
      if cd.value ≠ Val.undefined then
        if comp.ctype = "INPUT" then
          let cs := updateComp st1.components cd.id (fun c => { c with value := cd.value })
          pure { st1 with components := cs }
        else
          let cs := updateComp st1.components cd.id (fun c => { c with inputs := cd.value })
          pure { st1 with components := cs }
      else
        pure st1)
    s0
  pure (d.connections.foldl
    (fun st cn => (connectComponents st cn.fromId cn.fromOutput cn.toId cn.toInput).1)
    s1)

/-- The `HalfAdder` component's pin state (`inputs` A,B and `outputs`
Sum,Carry). -/
structure HalfAdder where
  inputs : List Val
  outputs : List Val
deriving DecidableEq

/-- `HalfAdder.compute()`: `outputs[0] = a !== b`, `outputs[1] = a && b`. -/
def HalfAdder.compute (h : HalfAdder) : HalfAdder :=
  let a := h.inputs.getD 0 .undefined
  let b := h.inputs.getD 1 .undefined
  { h with outputs := [.b (jsNeq a b), jsAnd a b] }

/-- The `FullAdder` component's pin state (`inputs` A,B,Cin and
`outputs` Sum,Cout). -/
structure FullAdder where
  inputs : List Val
  outputs : List Val
deriving DecidableEq

/-- `FullAdder.compute()`: `outputs[0] = a !== b !== cin` (left-
associated), `outputs[1] = (a && b) || (cin && (a !== b))`. -/
def FullAdder.compute (h : FullAdder) : FullAdder :=
  let a := h.inputs.getD 0 .undefined
  let b := h.inputs.getD 1 .undefined
  let cin := h.inputs.getD 2 .undefined
  { h with outputs :=
      [.b (jsNeq (.b (jsNeq a b)) cin),
       jsOr (jsAnd a b) (jsAnd cin (.b (jsNeq a b)))] }

/-- The `Multiplexer4to1` component's pin state. -/
structure Multiplexer4to1 where
  dataInputs : List Val
  selectInputs : List Val
  output : Val
deriving DecidableEq

/-- JavaScript numeric coercion of a boolean (`true * 2`, `false * 2`). -/
def Val.toNum (v : Val) : Nat := if v.truthy then 1 else 0

/-- `Multiplexer4to1.compute()`:
`selectValue = selectInputs[1] * 2 + selectInputs[0]`,
`output = dataInputs[selectValue]`. -/
def Multiplexer4to1.compute (m : Multiplexer4to1) : Multiplexer4to1 :=
  let selectValue := (m.selectInputs.getD 1 .undefined).toNum * 2 +
    (m.selectInputs.getD 0 .undefined).toNum
  { m with output := m.dataInputs.getD selectValue .undefined }

/-- A row of a generated truth table: the input cells as an ordered
key/value record (JavaScript object insertion order) plus the optional
`output` field. -/
structure TTRow where
  cells : List (String × Nat)
  output : Option Nat
deriving DecidableEq

/-- JavaScript object property write `row[k] = v`: updates an existing
key in place (keeping first-insertion order) or appends. -/
def objSet (l : List (String × Nat)) (k : String) (v : Nat) : List (String × Nat) :=
  if l.any (fun p => p.1 = k) then
    l.map (fun p => if p.1 = k then (k, v) else p)
  else l ++ [(k, v)]

/-- JavaScript object property read `row[k]`. -/
def objGet (l : List (String × Nat)) (k : String) : Option Nat :=
  (l.find? (fun p => p.1 = k)).map Prod.snd

/-- `TruthTableGenerator.generate(inputs, outputFunction)`: one row per
`i < 2^numInputs`; each input name receives
`(i >> (numInputs - 1 - index)) & 1`; when an output function is
supplied it is applied to the row's values in input-name order.  The
JavaScript spread call `outputFunction(...inputValues)` is modelled by
passing the value list. -/
def TruthTableGenerator.generate (inputs : List String)
    (outputFunction : Option (List Nat → Nat)) : List TTRow :=
  let numInputs := inputs.length
  let numRows := 2 ^ numInputs
  (List.range numRows).map (fun i =>
    let cells := inputs.enum.foldl
      (fun acc p => objSet acc p.2 ((i >>> (numInputs - 1 - p.1)) &&& 1)) []
    match outputFunction with
    | some f =>
      { cells := cells,
        output := some (f (inputs.map (fun name => (objGet cells name).getD 0))) }
    | none => { cells := cells, output := none })

/-- The example output function `(a, b) => a && b` applied to 0/1
values (JavaScript `&&` returns the first operand when it is falsy,
otherwise the second). -/
def andOutputFn (args : List Nat) : Nat :=
  let a := args.getD 0 0
  let b := args.getD 1 0
  if a ≠ 0 then b else a

/-- The circuit of the two-layer propagation test: components `INPUT A`,
`NOT n1`, `NOT n2` added in insertion order; `A` output 0 wired to `n1`
input 0, then `n1` output 0 wired to `n2` input 0; `A` toggled to
`true`. -/
def c2Build : Except String State := do
  let (s, _) ← addComponent emptyState "INPUT" "A" 100 100 none
  let (s, _) ← addComponent s "NOT" "n1" 100 100 none
  let (s, _) ← addComponent s "NOT" "n2" 100 100 none
  let s := (connectComponents s "A" 0 "n1" 0).1
  let s := (connectComponents s "n1" 0 "n2" 0).1
  pure (toggleInput s "A")

/-- The same acyclic chain as `c2Build`, but with the two connections
inserted in the reverse (non-dependency) order: first `n1 → n2`, then
`A → n1`. -/
def c1Build : Except String State := do
  let (s, _) ← addComponent emptyState "INPUT" "A" 100 100 none
  let (s, _) ← addComponent s "NOT" "n1" 100 100 none
  let (s, _) ← addComponent s "NOT" "n2" 100 100 none
  let s := (connectComponents s "n1" 0 "n2" 0).1
  let s := (connectComponents s "A" 0 "n1" 0).1
  pure (toggleInput s "A")

/-- A two-component cyclic circuit: `NOT n1` and `NOT n2` wired to each
other (`n1 → n2` and `n2 → n1`). -/
def cycBuild : Except String State := do
  let (s, _) ← addComponent emptyState "NOT" "n1" 0 0 none
  let (s, _) ← addComponent s "NOT" "n2" 0 0 none
  let s := (connectComponents s "n1" 0 "n2" 0).1
  let s := (connectComponents s "n2" 0 "n1" 0).1
  pure s

/-- An acyclic, well-formed three-component circuit with its `INPUT`
left at `false`: `INPUT A → NOT n1 → OUTPUT out`. -/
def c4Build : Except String State := do
  let (s, _) ← addComponent emptyState "INPUT" "A" 0 0 none
  let (s, _) ← addComponent s "NOT" "n1" 0 0 none
  let (s, _) ← addComponent s "OUTPUT" "out" 0 0 none
  let s := (connectComponents s "A" 0 "n1" 0).1
  let s := (connectComponents s "n1" 0 "out" 0).1
  pure s

/-- Proof-side measure for the fuel-stability argument: the number of
distinct component ids not yet in the visited set. -/
def uCount (comps : List Component) (v : List String) : Nat :=
  (((comps.map Component.id).dedup).filter (fun i => decide (i ∉ v))).length

/-- The input-pin write sequence `a[i] = v; …` applied in order
(proof-side notion used to characterize the connection-update pass). -/
def applyWrites (x : Val) (ws : List (Nat × Val)) : Val :=
  ws.foldl (fun a w => a.setIdx w.1 w.2) x

/-- The value of the last write to slot `j` in a write sequence, if
any. -/
def lastWrite : List (Nat × Val) → Nat → Option Val
  | [], _ => none
  | w :: ws, j =>
    match lastWrite ws j with
    | some v => some v
    | none => if w.1 = j then some w.2 else none

/-- The value `compute()` returns, as a function of the fields it
reads: the type tag, input slots 0 and 1, and the `value` field. -/
def computeVal (ctype : String) (i0 i1 v : Val) : Val :=
  if ctype = "AND" then jsAnd i0 i1
  else if ctype = "OR" then jsOr i0 i1
  else if ctype = "XOR" then .b (jsNeq i0 i1)
  else if ctype = "NOT" then jsNot i0
  else if ctype = "INPUT" then v
  else if ctype = "OUTPUT" then v
  else .undefined

/-- The four gate type tags (the types whose `compute()` stores into
`this.output`). -/
def isGate (ctype : String) : Bool :=
  ctype = "AND" || ctype = "OR" || ctype = "XOR" || ctype = "NOT"

/-- Input-slot writes a processed connection prefix (paired with its
computed values) performs on the component `c`. -/
def inputWritesFor (pairs : List (Conn × Val)) (c : Component) : List (Nat × Val) :=
  pairs.filterMap (fun q =>
    if q.1.toId = c.id ∧ c.ctype ≠ "OUTPUT" then some (q.1.toInput, q.2) else none)

/-- `setValue` writes a processed connection prefix performs on the
component `c` (targets whose type is `OUTPUT`). -/
def valueWritesFor (pairs : List (Conn × Val)) (c : Component) : List Val :=
  pairs.filterMap (fun q =>
    if q.1.toId = c.id ∧ c.ctype = "OUTPUT" then some q.2 else none)

/-- Output re-stores the connection pass performs on the gate `c` via
`connection.from.compute()`. -/
def outWritesFor (pairs : List (Conn × Val)) (c : Component) : List Val :=
  pairs.filterMap (fun q =>
    if q.1.fromId = c.id ∧ isGate c.ctype = true then some q.2 else none)

/-- Cumulative effect of the connection-update pass on one component:
its input slots receive the pass's writes in order, its `value` is the
last `setValue` (for `OUTPUT` targets), and its `output` is the last
re-store from `connection.from.compute()` (for gates). -/
def phase2CharFn (pairs : List (Conn × Val)) (c : Component) : Component :=
  { c with
    inputs := applyWrites c.inputs (inputWritesFor pairs c),
    value := (valueWritesFor pairs c).getLast?.getD c.value,
    output := (outWritesFor pairs c).getLast?.getD c.output }

/-- The sequence of values the connection-update pass computes, one per
connection, starting from the component store `cs`. -/
def phase2Vals (cs : List Component) (P : List Conn) : List Val :=
  ((P.foldl connStep (cs, [])).2).map Conn.value

/-- One more than the largest slot index a write sequence touches
(0 for the empty sequence). -/
def maxIdx : List (Nat × Val) → Nat
  | [] => 0
  | w :: ws => max (w.1 + 1) (maxIdx ws)

/-- Connection insertion order respects dependencies: every connection
into a component appears strictly before every connection out of it.
(This also rules out wired cycles, self-loops included.) -/
def ConnTopo (conns : List Conn) : Prop :=
  ∀ i j, (hi : i < conns.length) → (hj : j < conns.length) →
    (conns.get ⟨i, hi⟩).toId = (conns.get ⟨j, hj⟩).fromId → i < j

/-- Effect of one step of the per-component evaluation pass on one
component `d` of the store, for sorted-list element `c`. -/
def phase1Step (d c : Component) : Component :=
  if c.ctype = "INPUT" then d else if d.id = c.id then d.compute.1 else d

/-- Pointwise effect of the evaluation pass on a component of the
store (each component is hit exactly once when ids are unique). -/
def phase1Fn (c : Component) : Component :=
  if c.ctype = "INPUT" then c else c.compute.1

/-- The fields of a processed connection pair the connection-update
pass actually reads: source id, target id, target slot, and the
computed value. -/
def connKey (q : Conn × Val) : String × String × Nat × Val :=
  (q.1.fromId, q.1.toId, q.1.toInput, q.2)

/-- The connection list after the pass: each connection keeps its
endpoints and receives the value computed for it. -/
def setConnVals (P : List Conn) (vs : List Val) : List Conn :=
  List.zipWith (fun conn v => { conn with value := v }) P vs

theorem visit_of_contains {comps : List Component} {conns : List Conn}
    {c : Component} {st : VState} (h : st.visited.contains c.id = true) :
    ∀ fuel, visit comps conns fuel c st = st := by
  intro fuel
  cases fuel with
  | zero => rfl
  | succ f =>
    simp only [visit]
    rw [if_pos h]

theorem foldVisit_spec {comps : List Component}
    (f : Component → VState → VState)
    (hf : ∀ c st, c ∈ comps → ∃ new,
      (f c st).result = st.result ++ new ∧
      (f c st).visited.Perm (new.map Component.id ++ st.visited) ∧
      (∀ x ∈ new, x ∈ comps) ∧
      (st.visited.Nodup → (f c st).visited.Nodup)) :
    ∀ (l : List Component) (st : VState), (∀ d ∈ l, d ∈ comps) →
      ∃ new, (l.foldl (fun acc d => f d acc) st).result = st.result ++ new ∧
        (l.foldl (fun acc d => f d acc) st).visited.Perm
          (new.map Component.id ++ st.visited) ∧
        (∀ x ∈ new, x ∈ comps) ∧
        (st.visited.Nodup → (l.foldl (fun acc d => f d acc) st).visited.Nodup) := by
  intro l
  induction l with
  | nil =>
    intro st _
    exact ⟨[], by simp, by simp, by simp, fun h => h⟩
  | cons d l IH =>
    intro st hmem
    obtain ⟨n1, h1r, h1v, h1m, h1n⟩ := hf d st (hmem d (by simp))
    obtain ⟨n2, h2r, h2v, h2m, h2n⟩ := IH (f d st) (fun x hx => hmem x (by simp [hx]))
    refine ⟨n1 ++ n2, ?_, ?_, ?_, ?_⟩
    · simp only [List.foldl_cons]
      rw [h2r, h1r, List.append_assoc]
    · simp only [List.foldl_cons]
      refine h2v.trans ?_
      refine ((List.Perm.append_left (n2.map Component.id) h1v).trans ?_)
      rw [List.map_append, ← List.append_assoc]
      exact List.Perm.append_right _ (List.perm_append_comm)
    · intro x hx
      rcases List.mem_append.mp hx with h | h
      · exact h1m x h
      · exact h2m x h
    · intro hnd
      exact h2n (h1n hnd)

theorem visit_spec {comps : List Component} {conns : List Conn} :
    ∀ (fuel : Nat) (c : Component) (st : VState), c ∈ comps →
      ∃ new, (visit comps conns fuel c st).result = st.result ++ new ∧
        (visit comps conns fuel c st).visited.Perm
          (new.map Component.id ++ st.visited) ∧
        (∀ x ∈ new, x ∈ comps) ∧
        (st.visited.Nodup → (visit comps conns fuel c st).visited.Nodup) := by
  intro fuel
  induction fuel with
  | zero =>
    intro c st _
    exact ⟨[], by simp [visit], by simp [visit], by simp, fun h => h⟩
  | succ f IH =>
    intro c st hc
    by_cases hg : st.visited.contains c.id = true
    · rw [visit_of_contains hg]
      exact ⟨[], by simp, by simp, by simp, fun h => h⟩
    · have hnm : c.id ∉ st.visited := by
        simp only [Bool.not_eq_true] at hg
        simpa using hg
      have hsrc : ∀ d ∈ (conns.filter (fun k => k.toId == c.id)).filterMap
          (fun k => findComp comps k.fromId), d ∈ comps := by
        intro d hd
        obtain ⟨k, _, hk⟩ := List.mem_filterMap.mp hd
        exact List.mem_of_find?_eq_some hk
      obtain ⟨n2, h2r, h2v, h2m, h2n⟩ :=
        foldVisit_spec (visit comps conns f) (fun c' st' hc' => IH c' st' hc')
          ((conns.filter (fun k => k.toId == c.id)).filterMap
            (fun k => findComp comps k.fromId))
          ⟨c.id :: st.visited, st.result⟩ hsrc
      refine ⟨n2 ++ [c], ?_, ?_, ?_, ?_⟩
      · simp only [visit, hg, Bool.false_eq_true, if_false]
        rw [h2r]
        simp [List.append_assoc]
      · simp only [visit, hg, Bool.false_eq_true, if_false]
        refine h2v.trans ?_
        rw [List.map_append, List.append_assoc]
        simp
      · intro x hx
        rcases List.mem_append.mp hx with h | h
        · exact h2m x h
        · simp only [List.mem_singleton] at h
          exact h ▸ hc
      · intro hnd
        simp only [visit, hg, Bool.false_eq_true, if_false]
        exact h2n (List.nodup_cons.mpr ⟨hnm, hnd⟩)

theorem visit_visited_mono {comps : List Component} {conns : List Conn}
    {fuel : Nat} {c : Component} {st : VState} (hc : c ∈ comps) :
    ∀ a ∈ st.visited, a ∈ (visit comps conns fuel c st).visited := by
  intro a ha
  obtain ⟨new, _, hperm, _, _⟩ := @visit_spec comps conns fuel c st hc
  exact hperm.mem_iff.mpr (List.mem_append.mpr (Or.inr ha))

theorem foldVisit_visited_mono {comps : List Component} {conns : List Conn}
    {fuel : Nat} :
    ∀ (l : List Component) (st : VState), (∀ d ∈ l, d ∈ comps) →
      ∀ a ∈ st.visited,
        a ∈ (l.foldl (fun acc d => visit comps conns fuel d acc) st).visited := by
  intro l
  induction l with
  | nil => intro st _ a ha; simpa using ha
  | cons d l IH =>
    intro st hmem a ha
    simp only [List.foldl_cons]
    exact IH _ (fun x hx => hmem x (by simp [hx]))
      a (visit_visited_mono (hmem d (by simp)) a ha)

theorem visit_covers {comps : List Component} {conns : List Conn}
    {fuel : Nat} {c : Component} {st : VState} (hfuel : 1 ≤ fuel) (hc : c ∈ comps) :
    c.id ∈ (visit comps conns fuel c st).visited := by
  obtain ⟨f, rfl⟩ : ∃ f, fuel = f + 1 := ⟨fuel - 1, by omega⟩
  by_cases hg : st.visited.contains c.id = true
  · rw [visit_of_contains hg]
    simpa using hg
  · simp only [visit, hg, Bool.false_eq_true, if_false]
    have hsrc : ∀ d ∈ (conns.filter (fun k => k.toId == c.id)).filterMap
        (fun k => findComp comps k.fromId), d ∈ comps := by
      intro d hd
      obtain ⟨k, _, hk⟩ := List.mem_filterMap.mp hd
      exact List.mem_of_find?_eq_some hk
    exact foldVisit_visited_mono _ _ hsrc c.id (by simp)

theorem topoFold_covers {comps : List Component} {conns : List Conn}
    {fuel : Nat} (hfuel : 1 ≤ fuel) :
    ∀ (l : List Component) (st : VState), (∀ d ∈ l, d ∈ comps) →
      ∀ c ∈ l,
        c.id ∈ (l.foldl (fun acc d => visit comps conns fuel d acc) st).visited := by
  intro l
  induction l with
  | nil => intro st _ c hc; simp at hc
  | cons d l IH =>
    intro st hmem c hc
    simp only [List.foldl_cons]
    rcases List.mem_cons.mp hc with rfl | hcl
    · exact foldVisit_visited_mono _ _ (fun x hx => hmem x (by simp [hx]))
        c.id (visit_covers hfuel (hmem c (by simp)))
    · exact IH _ (fun x hx => hmem x (by simp [hx])) c hcl

/-- Core permutation property of the depth-first sort: for a graph whose
component ids are distinct (the graph invariant), the result at any fuel
of at least 1 lists every component exactly once. -/
theorem topologicalSortFuel_perm {comps : List Component} {conns : List Conn}
    {fuel : Nat} (hfuel : 1 ≤ fuel) (hids : (comps.map Component.id).Nodup) :
    (topologicalSortFuel comps conns fuel).Perm comps := by
  obtain ⟨R, hR, hperm, hmem, hnd⟩ :=
    @foldVisit_spec comps (visit comps conns fuel)
      (fun c' st' hc' => visit_spec fuel c' st' hc') comps ⟨[], []⟩ (fun d hd => hd)
  have hResult : topologicalSortFuel comps conns fuel = R := by
    simpa [topologicalSortFuel] using hR
  have hvnd : (List.foldl (fun acc d => visit comps conns fuel d acc)
      ⟨[], []⟩ comps).visited.Nodup := hnd (by simp)
  have hperm' : (List.foldl (fun acc d => visit comps conns fuel d acc)
      ⟨[], []⟩ comps).visited.Perm (R.map Component.id) := by
    simpa using hperm
  have hRids : (R.map Component.id).Nodup := (hperm'.nodup_iff).mp hvnd
  have hRnd : R.Nodup := List.Nodup.of_map _ hRids
  have hcnd : comps.Nodup := List.Nodup.of_map _ hids
  have hsub : comps ⊆ R := by
    intro c hc
    have hidin : c.id ∈ (List.foldl (fun acc d => visit comps conns fuel d acc)
        ⟨[], []⟩ comps).visited :=
      topoFold_covers hfuel comps ⟨[], []⟩ (fun d hd => hd) c hc
    have : c.id ∈ R.map Component.id := hperm'.mem_iff.mp hidin
    obtain ⟨r, hrR, hrid⟩ := List.mem_map.mp this
    have hrc : r = c := List.inj_on_of_nodup_map hids (hmem r hrR) hc hrid
    exact hrc ▸ hrR
  rw [hResult]
  exact List.Subperm.antisymm
    (List.subperm_of_subset hRnd hmem)
    (List.subperm_of_subset hcnd hsub)

theorem filter_length_mono {α : Type} {p q : α → Bool} :
    ∀ {l : List α}, (∀ x ∈ l, p x = true → q x = true) →
      (l.filter p).length ≤ (l.filter q).length := by
  intro l
  induction l with
  | nil => intro _; simp
  | cons a l IH =>
    intro h
    by_cases hp : p a = true
    · rw [List.filter_cons_of_pos hp, List.filter_cons_of_pos (h a (by simp) hp)]
      simpa using IH (fun x hx => h x (by simp [hx]))
    · rw [List.filter_cons_of_neg (by simpa using hp)]
      refine le_trans (IH (fun x hx => h x (by simp [hx]))) ?_
      by_cases hq : q a = true
      · rw [List.filter_cons_of_pos hq]; simp
      · rw [List.filter_cons_of_neg (by simpa using hq)]

theorem filter_length_succ {α : Type} [DecidableEq α] {p q : α → Bool} :
    ∀ {l : List α} {a : α}, l.Nodup → a ∈ l → p a = false → q a = true →
      (∀ x ∈ l, x ≠ a → p x = q x) →
      (l.filter q).length = (l.filter p).length + 1 := by
  intro l
  induction l with
  | nil => intro a _ ha; simp at ha
  | cons b l IH =>
    intro a hnd hmem hpa hqa hcong
    rcases List.mem_cons.mp hmem with rfl | hal
    · rw [List.filter_cons_of_pos hqa, List.filter_cons_of_neg (by simp [hpa])]
      have hnotin : a ∉ l := (List.nodup_cons.mp hnd).1
      have : l.filter q = l.filter p :=
        List.filter_congr (fun x hx => (hcong x (by simp [hx])
          (fun hxa => hnotin (hxa ▸ hx))).symm)
      simp [this]
    · have hba : b ≠ a := fun hba => (List.nodup_cons.mp hnd).1 (hba ▸ hal)
      have hpb : p b = q b := hcong b (by simp) hba
      by_cases hq : q b = true
      · rw [List.filter_cons_of_pos hq, List.filter_cons_of_pos (hpb ▸ hq)]
        simp only [List.length_cons]
        rw [IH (List.nodup_cons.mp hnd).2 hal hpa hqa
          (fun x hx hxa => hcong x (by simp [hx]) hxa)]
      · rw [List.filter_cons_of_neg (by simpa using hq),
          List.filter_cons_of_neg (by simp [hpb, hq])]
        exact IH (List.nodup_cons.mp hnd).2 hal hpa hqa
          (fun x hx hxa => hcong x (by simp [hx]) hxa)

theorem uCount_cons {comps : List Component} {v : List String} {a : String}
    (ha : a ∈ comps.map Component.id) (hnv : a ∉ v) :
    uCount comps v = uCount comps (a :: v) + 1 := by
  unfold uCount
  exact filter_length_succ (List.nodup_dedup _) (List.mem_dedup.mpr ha)
    (by simp) (by simpa using hnv)
    (fun x _ hxa => by simp [List.mem_cons, hxa])

theorem uCount_mono {comps : List Component} {v w : List String}
    (h : ∀ a ∈ v, a ∈ w) : uCount comps w ≤ uCount comps v := by
  unfold uCount
  refine filter_length_mono ?_
  intro x _ hx
  simp only [decide_eq_true_eq] at hx ⊢
  exact fun hxv => hx (h x hxv)

theorem uCount_pos {comps : List Component} {v : List String} {c : Component}
    (hc : c ∈ comps) (hnv : c.id ∉ v) : 1 ≤ uCount comps v := by
  unfold uCount
  have : c.id ∈ ((comps.map Component.id).dedup).filter (fun i => decide (i ∉ v)) := by
    rw [List.mem_filter]
    exact ⟨List.mem_dedup.mpr (List.mem_map.mpr ⟨c, hc, rfl⟩), by simpa using hnv⟩
  calc 1 ≤ _ := List.length_pos.mpr (List.ne_nil_of_mem this)

theorem uCount_le_length {comps : List Component} :
    uCount comps [] ≤ comps.length := by
  unfold uCount
  calc (((comps.map Component.id).dedup).filter _).length
      ≤ ((comps.map Component.id).dedup).length :=
        List.length_filter_le _ _
    _ ≤ (comps.map Component.id).length :=
        (List.dedup_sublist _).length_le
    _ = comps.length := by simp

theorem fold_congr_mono {comps : List Component}
    (g g' : Component → VState → VState) (M : Nat)
    (hmono : ∀ c st, c ∈ comps → ∀ a ∈ st.visited, a ∈ (g c st).visited)
    (hcong : ∀ c st, c ∈ comps → uCount comps st.visited ≤ M → g c st = g' c st) :
    ∀ (l : List Component) (st : VState), (∀ d ∈ l, d ∈ comps) →
      uCount comps st.visited ≤ M →
      l.foldl (fun acc d => g d acc) st = l.foldl (fun acc d => g' d acc) st := by
  intro l
  induction l with
  | nil => intro st _ _; rfl
  | cons d l IH =>
    intro st hmem hM
    have hd : d ∈ comps := hmem d (by simp)
    have heq : g d st = g' d st := hcong d st hd hM
    simp only [List.foldl_cons, ← heq]
    refine IH (g d st) (fun x hx => hmem x (by simp [hx])) ?_
    exact le_trans (uCount_mono (hmono d st hd)) hM

theorem visit_stable {comps : List Component} {conns : List Conn} :
    ∀ (N : Nat) (fuel fuel' : Nat) (c : Component) (st : VState), c ∈ comps →
      uCount comps st.visited ≤ N → uCount comps st.visited ≤ fuel →
      uCount comps st.visited ≤ fuel' →
      visit comps conns fuel c st = visit comps conns fuel' c st := by
  intro N
  induction N using Nat.strong_induction_on with
  | _ N IH =>
    intro fuel fuel' c st hc hN hf hf'
    by_cases hg : st.visited.contains c.id = true
    · rw [visit_of_contains hg, visit_of_contains hg]
    · have hnm : c.id ∉ st.visited := by
        simp only [Bool.not_eq_true] at hg
        simpa using hg
      have hpos : 1 ≤ uCount comps st.visited := uCount_pos hc hnm
      obtain ⟨f, rfl⟩ : ∃ f, fuel = f + 1 := ⟨fuel - 1, by omega⟩
      obtain ⟨f', rfl⟩ : ∃ f', fuel' = f' + 1 := ⟨fuel' - 1, by omega⟩
      simp only [visit, hg, Bool.false_eq_true, if_false]
      have hstep : uCount comps st.visited =
          uCount comps (c.id :: st.visited) + 1 :=
        uCount_cons (List.mem_map.mpr ⟨c, hc, rfl⟩) hnm
      have hsrc : ∀ d ∈ (conns.filter (fun k => k.toId == c.id)).filterMap
          (fun k => findComp comps k.fromId), d ∈ comps := by
        intro d hd
        obtain ⟨k, _, hk⟩ := List.mem_filterMap.mp hd
        exact List.mem_of_find?_eq_some hk
      have hfold :
          ((conns.filter (fun k => k.toId == c.id)).filterMap
            (fun k => findComp comps k.fromId)).foldl
              (fun acc d => visit comps conns f d acc)
              ⟨c.id :: st.visited, st.result⟩ =
          ((conns.filter (fun k => k.toId == c.id)).filterMap
            (fun k => findComp comps k.fromId)).foldl
              (fun acc d => visit comps conns f' d acc)
              ⟨c.id :: st.visited, st.result⟩ := by
        refine fold_congr_mono (visit comps conns f) (visit comps conns f')
          (uCount comps (c.id :: st.visited)) ?_ ?_ _ _ hsrc (le_refl _)
        · intro c' st' hc' a ha
          exact visit_visited_mono hc' a ha
        · intro c' st' hc' hM
          refine IH (uCount comps st'.visited) (by omega) f f' c' st' hc'
            (le_refl _) (by omega) (by omega)
      rw [hfold]

/-- Fuel irrelevance: any fuel of at least `comps.length` produces the
same `topologicalSort` result — the embedded depth-first search has
stabilized, which is the termination of the source's unbounded
recursion. -/
theorem topologicalSortFuel_stable {comps : List Component} {conns : List Conn}
    {fuel fuel' : Nat} (h : comps.length ≤ fuel) (h' : comps.length ≤ fuel') :
    topologicalSortFuel comps conns fuel = topologicalSortFuel comps conns fuel' := by
  unfold topologicalSortFuel
  rw [fold_congr_mono (visit comps conns fuel) (visit comps conns fuel')
    (uCount comps []) (fun c st hc a ha => visit_visited_mono hc a ha)
    (fun c st hc hM => visit_stable (uCount comps st.visited) fuel fuel' c st hc
      (le_refl _)
      (le_trans hM (le_trans uCount_le_length h))
      (le_trans hM (le_trans uCount_le_length h')))
    comps ⟨[], []⟩ (fun d hd => hd) (le_refl _)]

/-- The cyclic two-`NOT` state built by `cycBuild`. -/
def cycState : State := cycBuild.toOption.getD emptyState

/-- A one-component graph already containing an `AND` gate with id
`"a"`. -/
def dupBase : State :=
  { components := [ANDGate.new "a" 0 0], connections := [], selectedId := none }

/-- C2: in the circuit `INPUT A → NOT n1 → NOT n2` (components and
connections added in dependency order, `A` toggled to true), a single
`simulate()` call yields `n1.output = false` and `n2.output = true`:
two-layer propagation completes in one call. -/
theorem simulate_two_layer_chain :
    c2Build.map (fun s =>
      ((findComp (simulate s).components "n1").map Component.output,
       (findComp (simulate s).components "n2").map Component.output))
    = .ok (some (Val.b false), some (Val.b true)) := by decide

/-- C1 counterexample: in the acyclic chain `INPUT A → NOT n1 → NOT n2`
with its two connections inserted in reverse order, the first
`simulate()` call leaves `n1.output = true` while the second leaves
`n1.output = false`, and the states after one and two calls differ —
`simulate()` is not idempotent on this acyclic circuit. -/
theorem simulate_not_idempotent :
    c1Build.map (fun s =>
      ((findComp (simulate s).components "n1").map Component.output,
       (findComp (simulate (simulate s)).components "n1").map Component.output,
       decide (simulate (simulate s) = simulate s)))
    = .ok (some (Val.b true), some (Val.b false), false) := by decide

/-- C3 counterexample: on the cyclic circuit `NOT n1 ⇄ NOT n2`,
`topologicalSort` returns a full evaluation order (it raises no
`CycleDetectedError` — no such error exists anywhere in the source) and
`simulate` runs to completion, committing changed evaluation results to
component state. -/
theorem cycle_no_error_is_raised :
    cycBuild.map (fun s =>
      ((topologicalSort s).map Component.id, decide (simulate s = s)))
    = .ok (["n2", "n1"], false) := by decide

/-- C4 (code bug): for the acyclic, well-formed circuit
`INPUT A (false) → NOT n1 → OUTPUT out`, the original's next
`simulate()` gives `n1.output = true`, `out.value = true`, but after
`exportCircuit` (whose `value: c.value || c.inputs` serializes the
`false` input value as the truthy empty array) and `importCircuit`, the
re-imported circuit's `simulate()` gives `n1.output = false`,
`out.value = false` — the round-trip property fails. -/
theorem export_import_breaks_roundtrip :
    c4Build.map (fun s =>
      (((findComp (simulate s).components "n1").map Component.output,
        (findComp (simulate s).components "out").map Component.value),
       (importCircuit s (exportCircuit s)).map (fun t =>
        ((findComp (simulate t).components "n1").map Component.output,
         (findComp (simulate t).components "out").map Component.value))))
    = .ok ((some (Val.b true), some (Val.b true)),
           .ok (some (Val.b false), some (Val.b false))) := by decide

/-- C5 counterexample: adding a component whose id already exists does
not fail and does not leave the graph unchanged — the second `AND`
with id `"a"` is appended, leaving two components with the same id. -/
theorem addComponent_duplicate_id_succeeds :
    (do
      let (s, _) ← addComponent emptyState "AND" "a" 0 0 none
      let (s2, _) ← addComponent s "AND" "a" 10 10 none
      pure (s2.components.map Component.id)) = Except.ok ["a", "a"] := by decide

/-- C6 (code bug): `addComponent` rejects `HALF_ADDER`, `FULL_ADDER`
and `MUX_4TO1` with `Unknown component type` — although these types are
in the documented variant set, their classes exist in the file, and the
file's own `CircuitTemplates.fullAdderCircuit` calls
`addComponent('FULL_ADDER', …)` — while the six switch cases succeed. -/
theorem addComponent_variant_set :
    addComponent emptyState "HALF_ADDER" "h1" 0 0 none
      = .error "Unknown component type: HALF_ADDER"
    ∧ addComponent emptyState "FULL_ADDER" "f1" 0 0 none
      = .error "Unknown component type: FULL_ADDER"
    ∧ addComponent emptyState "MUX_4TO1" "m1" 0 0 none
      = .error "Unknown component type: MUX_4TO1"
    ∧ (addComponent emptyState "AND" "g1" 0 0 none).isOk = true
    ∧ (addComponent emptyState "OR" "g2" 0 0 none).isOk = true
    ∧ (addComponent emptyState "XOR" "g3" 0 0 none).isOk = true
    ∧ (addComponent emptyState "NOT" "g4" 0 0 none).isOk = true
    ∧ (addComponent emptyState "INPUT" "g5" 0 0 none).isOk = true
    ∧ (addComponent emptyState "OUTPUT" "g6" 0 0 none).isOk = true := by decide

theorem removeMatch_eq_eraseP (l : List Component) (p : Component → Bool) :
    (match l.findIdx? p with
     | none => l
     | some i => l.eraseIdx i) = l.eraseP p := by
  induction l with
  | nil => rfl
  | cons a l IH =>
    by_cases hp : p a = true
    · rw [List.eraseP_cons_of_pos hp]
      simp [List.findIdx?_cons, hp]
    · rw [List.eraseP_cons_of_neg (by simpa using hp)]
      simp only [List.findIdx?_cons, hp, Bool.false_eq_true, if_false,
        List.findIdx?_succ]
      cases hfi : l.findIdx? p with
      | none =>
        simp only [hfi] at IH
        exact congrArg (List.cons a) IH
      | some i =>
        simp only [hfi] at IH
        exact congrArg (List.cons a) IH

/-- C7: `removeComponent(id)` is a no-op when no component carries the
id; otherwise it removes the (first) component with that id,
cascade-deletes exactly the connections whose `from` or `to` endpoint is
that component — so no remaining connection references the id — and
clears the selection when the removed component was selected. -/
theorem removeComponent_spec (s : State) (id : String) :
    ((∀ c ∈ s.components, c.id ≠ id) → removeComponent s id = s)
    ∧ ((∃ c ∈ s.components, c.id = id) →
        (removeComponent s id).components
            = s.components.eraseP (fun c => c.id == id)
        ∧ (removeComponent s id).connections
            = s.connections.filter
                (fun conn => conn.fromId != id && conn.toId != id)
        ∧ (∀ conn ∈ (removeComponent s id).connections,
            conn.fromId ≠ id ∧ conn.toId ≠ id)
        ∧ (removeComponent s id).selectedId
            = (if s.selectedId = some id then none else s.selectedId)) := by
  constructor
  · intro h
    have hnone : s.components.findIdx? (fun c => c.id == id) = none := by
      rw [List.findIdx?_eq_none_iff]
      intro c hc
      simpa using h c hc
    simp [removeComponent, hnone]
  · intro h
    obtain ⟨c, hc, hcid⟩ := h
    have hne : s.components.findIdx? (fun c => c.id == id) ≠ none := by
      intro hnone
      rw [List.findIdx?_eq_none_iff] at hnone
      have := hnone c hc
      simp [hcid] at this
    obtain ⟨i, hi⟩ := Option.ne_none_iff_exists'.mp hne
    have hcomp : (removeComponent s id).components
        = s.components.eraseP (fun c => c.id == id) := by
      rw [← removeMatch_eq_eraseP s.components (fun c => c.id == id)]
      simp [removeComponent, hi]
    refine ⟨hcomp, by simp [removeComponent, hi], ?_, by simp [removeComponent, hi]⟩
    intro conn hconn
    simp only [removeComponent, hi] at hconn
    have := (List.mem_filter.mp hconn).2
    constructor
    · intro he
      simp [he] at this
    · intro he
      simp [he] at this

/-- A small state used to instantiate `removeComponent_spec`: two
components, two connections touching `"a"`, and `"a"` selected. -/
def removeDemo : State :=
  { components := [ANDGate.new "a" 0 0, NOTGate.new "n" 0 0],
    connections :=
      [{ fromId := "a", fromOutput := 0, toId := "n", toInput := 0, value := .b false },
       { fromId := "n", fromOutput := 0, toId := "a", toInput := 0, value := .b false }],
    selectedId := some "a" }

theorem removeComponent_spec_witness :
    (removeComponent removeDemo "a").components
        = removeDemo.components.eraseP (fun c => c.id == "a")
    ∧ (∀ conn ∈ (removeComponent removeDemo "a").connections,
        conn.fromId ≠ "a" ∧ conn.toId ≠ "a")
    ∧ (removeComponent removeDemo "a").selectedId = none
    ∧ removeComponent removeDemo "zz" = removeDemo := by
  have hpresent := (removeComponent_spec removeDemo "a").2
    ⟨ANDGate.new "a" 0 0, by decide, rfl⟩
  refine ⟨hpresent.1, hpresent.2.2.1, ?_, ?_⟩
  · rw [hpresent.2.2.2]; decide
  · exact (removeComponent_spec removeDemo "zz").1 (by decide)

/-- C8: every component type's `compute()` matches its rule table:
AND/OR/XOR/NOT the boolean truth tables, the half adder
`(Sum, Carry) = (A ≠ B, A ∧ B)`, the full adder `Sum = A ⊕ B ⊕ Cin`
and `Cout = A∧B ∨ Cin∧(A ≠ B)` over all 8 combinations, and the 4:1
multiplexer `output = data[select1*2 + select0]`. -/
theorem compute_rule_table :
    (∀ a b : Bool,
      ({ ANDGate.new "g" 0 0 with inputs := Val.arr [.b a, .b b] } : Component).compute.2
        = Val.b (a && b)
      ∧ ({ ORGate.new "g" 0 0 with inputs := Val.arr [.b a, .b b] } : Component).compute.2
        = Val.b (a || b)
      ∧ ({ XORGate.new "g" 0 0 with inputs := Val.arr [.b a, .b b] } : Component).compute.2
        = Val.b (a != b)
      ∧ (HalfAdder.compute ⟨[.b a, .b b], [.b false, .b false]⟩).outputs
        = [Val.b (a != b), Val.b (a && b)])
    ∧ (∀ a : Bool,
      ({ NOTGate.new "g" 0 0 with inputs := Val.arr [.b a] } : Component).compute.2
        = Val.b (!a))
    ∧ (∀ a b cin : Bool,
      (FullAdder.compute ⟨[.b a, .b b, .b cin], [.b false, .b false]⟩).outputs
        = [Val.b ((a != b) != cin), Val.b ((a && b) || (cin && (a != b)))])
    ∧ (∀ d0 d1 d2 d3 s0 s1 : Bool,
      (Multiplexer4to1.compute
          ⟨[.b d0, .b d1, .b d2, .b d3], [.b s0, .b s1], .b false⟩).output
        = Val.b ([d0, d1, d2, d3].getD
            ((if s1 then 1 else 0) * 2 + (if s0 then 1 else 0)) false)) := by
  decide

/-- C10: with the graph invariant (distinct component ids),
`topologicalSort()` returns a list containing each component exactly
once — on every graph, cyclic ones included — and the computation has
stabilized at fuel `components.length`: any larger call-depth budget
yields the same list, i.e. the source's recursion terminates because
each id is added to the visited set on entry. -/
theorem topologicalSort_total_spec (s : State) :
    ((s.components.map Component.id).Nodup → (topologicalSort s).Perm s.components)
    ∧ (∀ fuel, s.components.length ≤ fuel →
        topologicalSortFuel s.components s.connections fuel = topologicalSort s) := by
  constructor
  · intro h
    by_cases hne : s.components = []
    · simp [topologicalSort, topologicalSortFuel, hne]
    · exact topologicalSortFuel_perm
        (by have := List.length_pos.mpr hne; omega) h
  · intro fuel hf
    exact topologicalSortFuel_stable hf (le_refl _)

theorem topologicalSort_total_spec_witness :
    (topologicalSort cycState).Perm cycState.components
    ∧ topologicalSortFuel cycState.components cycState.connections 9
        = topologicalSort cycState :=
  ⟨(topologicalSort_total_spec cycState).1 (by decide),
   (topologicalSort_total_spec cycState).2 9 (by decide)⟩

/-- C3 amended: on a cyclic graph the evaluation-order computation
terminates — each component id enters the visited set on entry, so the
result is already stable at fuel `components.length = 2` — and returns
every component; no `CycleDetectedError` is raised (none exists in the
source), and `simulate` proceeds, committing evaluation results. -/
theorem cycle_topologicalSort_terminates :
    cycBuild = .ok cycState
    ∧ (∀ fuel, 2 ≤ fuel →
        topologicalSortFuel cycState.components cycState.connections fuel
          = topologicalSort cycState)
    ∧ (simulate cycState).components.map (fun c => (c.id, c.output))
        = [("n1", Val.b true), ("n2", Val.b false)]
    ∧ (simulate cycState).connections.map Conn.value
        = [Val.b true, Val.b false] := by
  refine ⟨by decide, ?_, by decide, by decide⟩
  intro fuel hf
  have h2 : cycState.components.length = 2 := by decide
  exact topologicalSortFuel_stable (by omega) (le_refl _)

theorem cycle_topologicalSort_terminates_witness :
    topologicalSortFuel cycState.components cycState.connections 7
      = topologicalSort cycState :=
  cycle_topologicalSort_terminates.2.1 7 (by decide)

/-- C5 amended: `addComponent` performs no duplicate-id check — when a
component with the given id is already present (and the type is one of
the six recognized tags), the call still succeeds, appending a fresh
component with the duplicate id and leaving every existing component
unmodified. -/
theorem addComponent_appends (s : State) (type id : String) (x y : Int)
    (label : Option String)
    (hdup : ∃ c₀ ∈ s.components, c₀.id = id)
    (hty : jsUpper type ∈ (["AND", "OR", "XOR", "NOT", "INPUT", "OUTPUT"] : List String)) :
    ∃ c, addComponent s type id x y label
        = .ok ({ s with components := s.components ++ [c] }, c)
      ∧ c.id = id := by
  simp only [List.mem_cons, List.not_mem_nil, or_false] at hty
  rcases hty with h | h | h | h | h | h
  · exact ⟨ANDGate.new id x y, by simp [addComponent, h], rfl⟩
  · exact ⟨ORGate.new id x y, by simp [addComponent, h], rfl⟩
  · exact ⟨XORGate.new id x y, by simp [addComponent, h], rfl⟩
  · exact ⟨NOTGate.new id x y, by simp [addComponent, h], rfl⟩
  · exact ⟨InputComponent.new id (jsLabelOr label "IN") x y,
      by simp [addComponent, h], rfl⟩
  · exact ⟨OutputComponent.new id (jsLabelOr label "OUT") x y,
      by simp [addComponent, h], rfl⟩

theorem addComponent_appends_witness :
    ∃ c, addComponent dupBase "AND" "a" 5 5 none
        = .ok ({ dupBase with components := dupBase.components ++ [c] }, c)
      ∧ c.id = "a" :=
  addComponent_appends dupBase "AND" "a" 5 5 none
    ⟨ANDGate.new "a" 0 0, by decide, rfl⟩ (by decide)

theorem shift_and_one (i k : Nat) :
    (i >>> k) &&& 1 = if i.testBit k then 1 else 0 := by
  rw [Nat.and_one_is_mod, Nat.shiftRight_eq_div_pow, Nat.testBit_to_div_mod]
  rcases Nat.mod_two_eq_zero_or_one (i / 2 ^ k) with h | h <;> simp [h]

theorem objSet_fresh {acc : List (String × Nat)} {k : String} {v : Nat}
    (h : k ∉ acc.map Prod.fst) : objSet acc k v = acc ++ [(k, v)] := by
  unfold objSet
  rw [if_neg]
  intro hany
  rw [List.any_eq_true] at hany
  obtain ⟨p, hp, hpk⟩ := hany
  simp only [decide_eq_true_eq] at hpk
  exact h (List.mem_map.mpr ⟨p, hp, hpk⟩)

theorem foldl_objSet_fresh (bitf : Nat → Nat) :
    ∀ (names : List String) (n : Nat) (acc : List (String × Nat)),
      names.Nodup → (∀ name ∈ names, name ∉ acc.map Prod.fst) →
      (List.enumFrom n names).foldl (fun acc p => objSet acc p.2 (bitf p.1)) acc
        = acc ++ (List.enumFrom n names).map (fun p => (p.2, bitf p.1)) := by
  intro names
  induction names with
  | nil => intro n acc _ _; simp [List.enumFrom]
  | cons a l IH =>
    intro n acc hnd hfresh
    rw [List.enumFrom_cons]
    simp only [List.foldl_cons, List.map_cons]
    rw [objSet_fresh (hfresh a (by simp))]
    rw [IH (n + 1) _ (List.nodup_cons.mp hnd).2 ?_]
    · simp
    · intro name hname
      simp only [List.map_append, List.mem_append]
      rintro (h | h)
      · exact hfresh name (by simp [hname]) h
      · simp only [List.map_cons, List.map_nil, List.mem_singleton] at h
        exact (List.nodup_cons.mp hnd).1 (h ▸ hname)

theorem map_objGet_enum (bitf : Nat → Nat) :
    ∀ (names : List String) (n : Nat), names.Nodup →
      names.map (fun name =>
        (objGet ((List.enumFrom n names).map (fun p => (p.2, bitf p.1))) name).getD 0)
        = (List.enumFrom n names).map (fun p => bitf p.1) := by
  intro names
  induction names with
  | nil => intro n _; simp [List.enumFrom]
  | cons a l IH =>
    intro n hnd
    rw [List.enumFrom_cons]
    simp only [List.map_cons]
    congr 1
    · simp [objGet, List.find?]
    · have hstep : ∀ name ∈ l,
          (objGet ((a, bitf n) :: (List.enumFrom (n + 1) l).map
              (fun p => (p.2, bitf p.1))) name).getD 0
            = (objGet ((List.enumFrom (n + 1) l).map
                (fun p => (p.2, bitf p.1))) name).getD 0 := by
        intro name hname
        have hne : ¬(a = name) := by
          intro he
          exact (List.nodup_cons.mp hnd).1 (he ▸ hname)
        simp [objGet, List.find?, hne]
      rw [List.map_congr_left hstep]
      exact IH (n + 1) (List.nodup_cons.mp hnd).2

theorem range_map_getD {g : Nat → TTRow} {n i : Nat} (h : i < n) :
    ((List.range n).map g).getD i ⟨[], none⟩ = g i := by
  rw [List.getD_eq_getElem?_getD, List.getElem?_map, List.getElem?_range h]
  rfl

/-- C9: for distinct input names, `TruthTableGenerator.generate`
produces exactly `2^N` rows; row `i` assigns to `inputNames[index]` bit
`(N-1-index)` of `i` (first name most significant) and stores the output
function applied to the row's values in input-name order; in particular
`generate(['A','B'], (a,b) => a && b)` is exactly the four claimed
rows. -/
theorem truthTableGenerator_spec :
    (∀ (inputs : List String) (f : List Nat → Nat), inputs.Nodup →
      (TruthTableGenerator.generate inputs (some f)).length = 2 ^ inputs.length
      ∧ ∀ i, i < 2 ^ inputs.length →
        (TruthTableGenerator.generate inputs (some f)).getD i ⟨[], none⟩
          = { cells := (List.enumFrom 0 inputs).map (fun p =>
                (p.2, if i.testBit (inputs.length - 1 - p.1) then 1 else 0)),
              output := some (f ((List.enumFrom 0 inputs).map (fun p =>
                if i.testBit (inputs.length - 1 - p.1) then 1 else 0))) })
    ∧ TruthTableGenerator.generate ["A", "B"] (some andOutputFn)
        = [⟨[("A", 0), ("B", 0)], some 0⟩, ⟨[("A", 0), ("B", 1)], some 0⟩,
           ⟨[("A", 1), ("B", 0)], some 0⟩, ⟨[("A", 1), ("B", 1)], some 1⟩] := by
  constructor
  · intro inputs f hnd
    constructor
    · simp [TruthTableGenerator.generate]
    · intro i hi
      have henum : inputs.enum = List.enumFrom 0 inputs := rfl
      have hcells := foldl_objSet_fresh
        (fun idx => (i >>> (inputs.length - 1 - idx)) &&& 1) inputs 0 [] hnd
        (by simp)
      simp only [List.nil_append] at hcells
      have hout := map_objGet_enum
        (fun idx => (i >>> (inputs.length - 1 - idx)) &&& 1) inputs 0 hnd
      have hbit : ∀ p : Nat × String,
          (fun idx => (i >>> (inputs.length - 1 - idx)) &&& 1) p.1
            = if i.testBit (inputs.length - 1 - p.1) then 1 else 0 := by
        intro p
        exact shift_and_one i (inputs.length - 1 - p.1)
      simp only [TruthTableGenerator.generate]
      rw [range_map_getD hi]
      rw [henum]
      rw [hcells, hout]
      refine congrArg₂ (fun a b => TTRow.mk a (some (f b))) ?_ ?_
      · exact List.map_congr_left (fun p _ => by rw [← hbit p])
      · exact List.map_congr_left (fun p _ => by rw [← hbit p])
  · decide

theorem truthTableGenerator_spec_witness :
    (TruthTableGenerator.generate ["A", "B"] (some andOutputFn)).length = 2 ^ 2
    ∧ (TruthTableGenerator.generate ["A", "B"] (some andOutputFn)).getD 2 ⟨[], none⟩
        = { cells := (List.enumFrom 0 ["A", "B"]).map (fun p =>
              (p.2, if (2 : Nat).testBit (2 - 1 - p.1) then 1 else 0)),
            output := some (andOutputFn ((List.enumFrom 0 ["A", "B"]).map (fun p =>
              if (2 : Nat).testBit (2 - 1 - p.1) then 1 else 0))) } := by
  have h := truthTableGenerator_spec.1 ["A", "B"] andOutputFn (by decide)
  exact ⟨h.1, h.2 2 (by decide)⟩

theorem compute_snd (c : Component) :
    c.compute.2 = computeVal c.ctype (c.inputs.idx 0) (c.inputs.idx 1) c.value := by
  unfold Component.compute computeVal
  split_ifs <;> rfl

theorem compute_fst_gate {c : Component} (h : isGate c.ctype = true) :
    c.compute.1 = { c with output := c.compute.2 } := by
  unfold isGate at h
  simp only [Bool.or_eq_true, decide_eq_true_eq] at h
  obtain ⟨ci, ct, cx, cy, cl, cin, cout, cv, cse⟩ := c
  dsimp only at h ⊢
  rcases h with ((h | h) | h) | h <;> (subst h; rfl)

theorem compute_fst_nongate {c : Component} (h : isGate c.ctype = false) :
    c.compute.1 = c := by
  unfold isGate at h
  simp only [Bool.or_eq_false_iff, decide_eq_false_iff_not] at h
  obtain ⟨⟨⟨h1, h2⟩, h3⟩, h4⟩ := h
  simp only [Component.compute, h1, h2, h3, h4, if_false]
  split_ifs <;> rfl

theorem setIdx_nonarr {x : Val} (h : ∀ l, x ≠ .arr l) (i : Nat) (v : Val) :
    x.setIdx i v = x := by
  cases x with
  | b bv => rfl
  | arr l => exact absurd rfl (h l)
  | undefined => rfl

theorem jsListSet_length (l : List Val) (i : Nat) (v : Val) :
    (jsListSet l i v).length = max l.length (i + 1) := by
  unfold jsListSet
  split_ifs with h <;> simp <;> omega

theorem jsListSet_getElem (l : List Val) (i : Nat) (v : Val) (j : Nat) :
    (jsListSet l i v)[j]? = if j = i then some v
      else if j < l.length then l[j]?
      else if j < max l.length (i + 1) then some Val.undefined else none := by
  unfold jsListSet
  by_cases h : i < l.length
  · rw [if_pos h, List.getElem?_set]
    by_cases hji : i = j
    · subst hji
      rw [if_pos rfl, if_pos h, if_pos rfl]
    · rw [if_neg hji, if_neg (fun hh => hji hh.symm)]
      by_cases hjl : j < l.length
      · rw [if_pos hjl]
      · rw [if_neg hjl, if_neg (by omega)]
        exact List.getElem?_eq_none (by omega)
  · rw [if_neg h, List.getElem?_append]
    have hlen : (l ++ List.replicate (i - l.length) Val.undefined).length = i := by
      simp; omega
    by_cases hji : j = i
    · subst hji
      rw [if_neg (by omega), hlen, if_pos rfl]
      have h0 : j - j = 0 := by omega
      rw [h0]
      rfl
    · rw [if_neg hji]
      by_cases hjl : j < l.length
      · rw [if_pos (by rw [hlen]; omega), if_pos hjl, List.getElem?_append,
          if_pos hjl]
      · rw [if_neg hjl]
        by_cases hjlt : j < i
        · rw [if_pos (by rw [hlen]; omega), if_pos (by omega),
            List.getElem?_append, if_neg hjl, List.getElem?_replicate,
            if_pos (by omega)]
        · rw [if_neg (by rw [hlen]; omega), if_neg (by omega), hlen]
          have h0 : ¬(j - i = 0) := by omega
          simp [List.getElem?_cons, h0]

theorem applyWrites_nonarr {x : Val} (h : ∀ l, x ≠ .arr l) (ws : List (Nat × Val)) :
    applyWrites x ws = x := by
  induction ws with
  | nil => rfl
  | cons w ws IH =>
    unfold applyWrites at IH ⊢
    simp only [List.foldl_cons]
    rw [setIdx_nonarr h]
    exact IH

theorem applyWrites_arr (l : List Val) (ws : List (Nat × Val)) :
    ∃ m, applyWrites (.arr l) ws = .arr m := by
  induction ws generalizing l with
  | nil => exact ⟨l, rfl⟩
  | cons w ws IH =>
    unfold applyWrites
    simp only [List.foldl_cons]
    show ∃ m, applyWrites ((Val.arr l).setIdx w.1 w.2) ws = Val.arr m
    exact IH (jsListSet l w.1 w.2)

theorem idx_jsListSet (l : List Val) (i : Nat) (v : Val) (j : Nat) :
    (Val.arr (jsListSet l i v)).idx j = if i = j then v else (Val.arr l).idx j := by
  simp only [Val.idx]
  rw [List.getD_eq_getElem?_getD, List.getD_eq_getElem?_getD, jsListSet_getElem]
  by_cases hji : j = i
  · subst hji; simp
  · rw [if_neg hji, if_neg (show ¬(i = j) from fun hh => hji hh.symm)]
    by_cases hjl : j < l.length
    · rw [if_pos hjl]
    · rw [if_neg hjl, List.getElem?_eq_none (le_of_not_lt hjl)]
      split_ifs <;> rfl

theorem lastWrite_cons (w : Nat × Val) (ws : List (Nat × Val)) (j : Nat) :
    lastWrite (w :: ws) j
      = match lastWrite ws j with
        | some v => some v
        | none => if w.1 = j then some w.2 else none := rfl

theorem idx_applyWrites (ws : List (Nat × Val)) :
    ∀ (l : List Val) (j : Nat),
      (applyWrites (.arr l) ws).idx j
        = match lastWrite ws j with
          | some v => v
          | none => (Val.arr l).idx j := by
  induction ws with
  | nil => intro l j; rfl
  | cons w ws IH =>
    intro l j
    show (applyWrites (Val.arr (jsListSet l w.1 w.2)) ws).idx j = _
    rw [IH (jsListSet l w.1 w.2) j, lastWrite_cons]
    cases hlw : lastWrite ws j with
    | some v => rfl
    | none =>
      rw [idx_jsListSet]
      by_cases hw : w.1 = j <;> simp [hw]

theorem maxIdx_cons (w : Nat × Val) (ws : List (Nat × Val)) :
    maxIdx (w :: ws) = max (w.1 + 1) (maxIdx ws) := rfl

theorem applyWrites_char (ws : List (Nat × Val)) :
    ∀ l : List Val, ∃ m, applyWrites (.arr l) ws = .arr m
      ∧ m.length = max l.length (maxIdx ws)
      ∧ ∀ j, m[j]? = match lastWrite ws j with
          | some v => some v
          | none => if j < l.length then l[j]?
              else if j < max l.length (maxIdx ws) then some Val.undefined else none := by
  induction ws with
  | nil =>
    intro l
    refine ⟨l, rfl, by simp [maxIdx], ?_⟩
    intro j
    show l[j]? = if j < l.length then l[j]?
        else if j < max l.length (maxIdx []) then some Val.undefined else none
    by_cases hj : j < l.length
    · rw [if_pos hj]
    · rw [if_neg hj, if_neg (by simp only [maxIdx]; omega)]
      exact List.getElem?_eq_none (by omega)
  | cons w ws IH =>
    intro l
    obtain ⟨m, hm, hlen, hget⟩ := IH (jsListSet l w.1 w.2)
    refine ⟨m, ?_, ?_, ?_⟩
    · show applyWrites (Val.arr (jsListSet l w.1 w.2)) ws = Val.arr m
      exact hm
    · rw [hlen, jsListSet_length, maxIdx_cons]
      omega
    · intro j
      rw [hget j, lastWrite_cons]
      cases hlw : lastWrite ws j with
      | some v => rfl
      | none =>
        rw [jsListSet_getElem, jsListSet_length]
        by_cases hw : w.1 = j
        · simp [hw]
        · rw [if_neg hw]
          dsimp only
          rw [if_neg (show ¬(j = w.1) from fun hh => hw hh.symm), maxIdx_cons]
          split_ifs <;> first | rfl | (exfalso; omega)

theorem applyWrites_idem (x : Val) (ws : List (Nat × Val)) :
    applyWrites (applyWrites x ws) ws = applyWrites x ws := by
  cases x with
  | b bv =>
    have heq : applyWrites (Val.b bv) ws = Val.b bv :=
      applyWrites_nonarr (fun l h => Val.noConfusion h) ws
    rw [heq, heq]
  | undefined =>
    have heq : applyWrites Val.undefined ws = Val.undefined :=
      applyWrites_nonarr (fun l h => Val.noConfusion h) ws
    rw [heq, heq]
  | arr l =>
    obtain ⟨m, hm, hlen, hget⟩ := applyWrites_char ws l
    obtain ⟨m2, hm2, hlen2, hget2⟩ := applyWrites_char ws m
    rw [hm, hm2]
    have hmax : max m.length (maxIdx ws) = m.length := by
      rw [hlen]; omega
    have hme : m2 = m := by
      refine List.ext_getElem? ?_
      intro j
      rw [hget2 j]
      cases hlw : lastWrite ws j with
      | some v =>
        rw [hget j, hlw]
      | none =>
        rw [hmax]
        by_cases hj : j < m.length
        · rw [if_pos hj]
        · rw [if_neg hj, if_neg (by omega)]
          exact (List.getElem?_eq_none (by omega)).symm
    rw [hme]

theorem findComp_map {g : Component → Component} (hg : ∀ c, (g c).id = c.id)
    (cs : List Component) (id : String) :
    findComp (cs.map g) id = (findComp cs id).map g := by
  unfold findComp
  rw [List.find?_map]
  have hpred : ((fun c : Component => c.id == id) ∘ g)
      = (fun c : Component => c.id == id) := by
    funext c
    simp [Function.comp, hg c]
  rw [hpred]

theorem findComp_eq_self {cs : List Component} (hnd : (cs.map Component.id).Nodup) :
    ∀ {c : Component}, c ∈ cs → findComp cs c.id = some c := by
  induction cs with
  | nil => intro c hc; simp at hc
  | cons a cs IH =>
    intro c hc
    rcases List.mem_cons.mp hc with rfl | hmem
    · show (c :: cs).find? (fun d => d.id == c.id) = some c
      rw [List.find?_cons_of_pos _ (by simp)]
    · have hna : a.id ∉ cs.map Component.id := by
        have := hnd
        simp only [List.map_cons, List.nodup_cons] at this
        exact this.1
      have hne : ¬(a.id = c.id) := by
        intro he
        exact hna (he ▸ List.mem_map.mpr ⟨c, hmem, rfl⟩)
      show (a :: cs).find? (fun d => d.id == c.id) = some c
      rw [List.find?_cons_of_neg _ (by simpa using hne)]
      have htl : (cs.map Component.id).Nodup := by
        have := hnd
        simp only [List.map_cons, List.nodup_cons] at this
        exact this.2
      exact IH htl hmem

theorem findComp_none {cs : List Component} {id : String}
    (h : ∀ c ∈ cs, ¬(c.id = id)) : findComp cs id = none := by
  unfold findComp
  rw [List.find?_eq_none]
  intro c hc
  simpa using h c hc

theorem updateComp_map (cs : List Component) (g : Component → Component)
    (hg : ∀ c, (g c).id = c.id) (id : String) (f : Component → Component) :
    updateComp (cs.map g) id f
      = cs.map (fun c => if c.id = id then f (g c) else g c) := by
  unfold updateComp
  rw [List.map_map]
  refine List.map_congr_left (fun c _ => ?_)
  by_cases h : c.id = id <;> simp [Function.comp, hg c, h]

theorem phase2CharFn_id (pairs : List (Conn × Val)) (c : Component) :
    (phase2CharFn pairs c).id = c.id := rfl

theorem phase2CharFn_ctype (pairs : List (Conn × Val)) (c : Component) :
    (phase2CharFn pairs c).ctype = c.ctype := rfl

theorem phase2CharFn_nil (c : Component) : phase2CharFn [] c = c := rfl

theorem applyWrites_snoc (x : Val) (ws : List (Nat × Val)) (w : Nat × Val) :
    applyWrites x (ws ++ [w]) = (applyWrites x ws).setIdx w.1 w.2 := by
  unfold applyWrites
  rw [List.foldl_append]
  rfl

theorem inputWritesFor_snoc (pairs : List (Conn × Val)) (q : Conn × Val)
    (c : Component) :
    inputWritesFor (pairs ++ [q]) c
      = inputWritesFor pairs c
        ++ (if q.1.toId = c.id ∧ c.ctype ≠ "OUTPUT" then [(q.1.toInput, q.2)] else []) := by
  unfold inputWritesFor
  rw [List.filterMap_append]
  congr 1
  by_cases h : q.1.toId = c.id ∧ c.ctype ≠ "OUTPUT" <;> simp [h]

theorem valueWritesFor_snoc (pairs : List (Conn × Val)) (q : Conn × Val)
    (c : Component) :
    valueWritesFor (pairs ++ [q]) c
      = valueWritesFor pairs c
        ++ (if q.1.toId = c.id ∧ c.ctype = "OUTPUT" then [q.2] else []) := by
  unfold valueWritesFor
  rw [List.filterMap_append]
  congr 1
  by_cases h : q.1.toId = c.id ∧ c.ctype = "OUTPUT" <;> simp [h]

theorem outWritesFor_snoc (pairs : List (Conn × Val)) (q : Conn × Val)
    (c : Component) :
    outWritesFor (pairs ++ [q]) c
      = outWritesFor pairs c
        ++ (if q.1.fromId = c.id ∧ isGate c.ctype = true then [q.2] else []) := by
  unfold outWritesFor
  rw [List.filterMap_append]
  congr 1
  by_cases h : q.1.fromId = c.id ∧ isGate c.ctype = true <;> simp [h]

theorem zipWith_setValue_map_value (vs : List Val) :
    ∀ P : List Conn, vs.length = P.length →
      (List.zipWith (fun conn v => { conn with value := v }) P vs).map Conn.value
        = vs := by
  induction vs with
  | nil => intro P _; simp
  | cons v vs IH =>
    intro P hlen
    cases P with
    | nil => simp at hlen
    | cons conn P =>
      simp only [List.zipWith_cons_cons, List.map_cons]
      rw [IH P (by simpa using hlen)]

theorem compute_fst_id (c : Component) : (c.compute.1).id = c.id := by
  by_cases h : isGate c.ctype = true
  · rw [compute_fst_gate h]
  · rw [compute_fst_nongate (by simpa using h)]

theorem compute_fst_ctype (c : Component) : (c.compute.1).ctype = c.ctype := by
  by_cases h : isGate c.ctype = true
  · rw [compute_fst_gate h]
  · rw [compute_fst_nongate (by simpa using h)]

theorem compute_fst_inputs (c : Component) : (c.compute.1).inputs = c.inputs := by
  by_cases h : isGate c.ctype = true
  · rw [compute_fst_gate h]
  · rw [compute_fst_nongate (by simpa using h)]

theorem compute_fst_value (c : Component) : (c.compute.1).value = c.value := by
  by_cases h : isGate c.ctype = true
  · rw [compute_fst_gate h]
  · rw [compute_fst_nongate (by simpa using h)]

theorem phase2CharFn_snoc (pairs : List (Conn × Val)) (q : Conn × Val)
    (c : Component) :
    phase2CharFn (pairs ++ [q]) c
      = { phase2CharFn pairs c with
          inputs := if q.1.toId = c.id ∧ c.ctype ≠ "OUTPUT"
            then (phase2CharFn pairs c).inputs.setIdx q.1.toInput q.2
            else (phase2CharFn pairs c).inputs,
          value := if q.1.toId = c.id ∧ c.ctype = "OUTPUT" then q.2
            else (phase2CharFn pairs c).value,
          output := if q.1.fromId = c.id ∧ isGate c.ctype = true then q.2
            else (phase2CharFn pairs c).output } := by
  unfold phase2CharFn
  rw [inputWritesFor_snoc, valueWritesFor_snoc, outWritesFor_snoc]
  split_ifs with h1 h2 h3 <;>
    first
      | exact absurd h2.2 h1.2
      | simp [applyWrites_snoc, List.getLast?_concat]

theorem connStep_from_some {cs : List Component} {acc2 : List Conn} {conn : Conn}
    {f : Component} (hf : findComp cs conn.fromId = some f) :
    connStep (cs, acc2) conn
      = ((match findComp (updateComp cs conn.fromId (fun _ => f.compute.1)) conn.toId with
          | none => updateComp cs conn.fromId (fun _ => f.compute.1)
          | some t =>
            if t.ctype = "OUTPUT" then
              updateComp (updateComp cs conn.fromId (fun _ => f.compute.1)) conn.toId
                (fun u => { u with value := f.compute.2 })
            else
              updateComp (updateComp cs conn.fromId (fun _ => f.compute.1)) conn.toId
                (fun u => { u with inputs := u.inputs.setIdx conn.toInput f.compute.2 })),
         acc2 ++ [{ conn with value := f.compute.2 }]) := by
  unfold connStep
  dsimp only
  rw [hf]

theorem phase2CharFn_snoc2 (pairs : List (Conn × Val)) (conn : Conn) (v : Val)
    (c : Component) :
    phase2CharFn (pairs ++ [(conn, v)]) c
      = { phase2CharFn pairs c with
          inputs := if conn.toId = c.id ∧ c.ctype ≠ "OUTPUT"
            then (phase2CharFn pairs c).inputs.setIdx conn.toInput v
            else (phase2CharFn pairs c).inputs,
          value := if conn.toId = c.id ∧ c.ctype = "OUTPUT" then v
            else (phase2CharFn pairs c).value,
          output := if conn.fromId = c.id ∧ isGate c.ctype = true then v
            else (phase2CharFn pairs c).output } :=
  phase2CharFn_snoc pairs (conn, v) c

theorem stepElement_none (Fp : Component → Component) (conn : Conn)
    (f c : Component)
    (hFpct : (Fp c).ctype = c.ctype) (hfc : c.id = conn.fromId → f = c)
    (hnt : ¬(conn.toId = c.id)) :
    (if c.id = conn.fromId then (Fp f).compute.1 else Fp c)
      = { Fp c with
          inputs := if conn.toId = c.id ∧ c.ctype ≠ "OUTPUT"
            then (Fp c).inputs.setIdx conn.toInput ((Fp f).compute.2)
            else (Fp c).inputs,
          value := if conn.toId = c.id ∧ c.ctype = "OUTPUT" then (Fp f).compute.2
            else (Fp c).value,
          output := if conn.fromId = c.id ∧ isGate c.ctype = true then (Fp f).compute.2
            else (Fp c).output } := by
  rw [if_neg (show ¬(conn.toId = c.id ∧ c.ctype ≠ "OUTPUT") from fun h => hnt h.1),
    if_neg (show ¬(conn.toId = c.id ∧ c.ctype = "OUTPUT") from fun h => hnt h.1)]
  by_cases hcf : c.id = conn.fromId
  · rw [if_pos hcf, hfc hcf]
    by_cases hg : isGate c.ctype = true
    · rw [if_pos (show conn.fromId = c.id ∧ isGate c.ctype = true from ⟨hcf.symm, hg⟩)]
      rw [compute_fst_gate (show isGate (Fp c).ctype = true from by rw [hFpct]; exact hg)]
    · rw [if_neg (show ¬(conn.fromId = c.id ∧ isGate c.ctype = true) from fun h => hg h.2)]
      rw [compute_fst_nongate
        (show isGate (Fp c).ctype = false from by rw [hFpct]; simpa using hg)]
  · rw [if_neg hcf,
      if_neg (show ¬(conn.fromId = c.id ∧ isGate c.ctype = true) from
        fun h => hcf h.1.symm)]

theorem stepElement_out (Fp : Component → Component) (conn : Conn)
    (f c : Component)
    (hFpct : (Fp c).ctype = c.ctype) (hfc : c.id = conn.fromId → f = c)
    (hto : conn.toId = c.id → c.ctype = "OUTPUT") :
    (if c.id = conn.toId then
        { (if c.id = conn.fromId then (Fp f).compute.1 else Fp c) with
          value := (Fp f).compute.2 }
      else (if c.id = conn.fromId then (Fp f).compute.1 else Fp c))
      = { Fp c with
          inputs := if conn.toId = c.id ∧ c.ctype ≠ "OUTPUT"
            then (Fp c).inputs.setIdx conn.toInput ((Fp f).compute.2)
            else (Fp c).inputs,
          value := if conn.toId = c.id ∧ c.ctype = "OUTPUT" then (Fp f).compute.2
            else (Fp c).value,
          output := if conn.fromId = c.id ∧ isGate c.ctype = true then (Fp f).compute.2
            else (Fp c).output } := by
  by_cases hct : c.id = conn.toId
  · have hcout : c.ctype = "OUTPUT" := hto hct.symm
    have hng : isGate c.ctype = false := by rw [hcout]; rfl
    rw [if_pos hct,
      if_neg (show ¬(conn.toId = c.id ∧ c.ctype ≠ "OUTPUT") from fun h => h.2 hcout),
      if_pos (show conn.toId = c.id ∧ c.ctype = "OUTPUT" from ⟨hct.symm, hcout⟩),
      if_neg (show ¬(conn.fromId = c.id ∧ isGate c.ctype = true) from
        fun h => by rw [hng] at h; exact Bool.noConfusion h.2)]
    by_cases hcf : c.id = conn.fromId
    · rw [if_pos hcf, hfc hcf,
        compute_fst_nongate (show isGate (Fp c).ctype = false from by
          rw [hFpct]; exact hng)]
    · rw [if_neg hcf]
  · rw [if_neg hct]
    exact stepElement_none Fp conn f c hFpct hfc (fun h => hct h.symm)

theorem stepElement_in (Fp : Component → Component) (conn : Conn)
    (f c : Component)
    (hFpct : (Fp c).ctype = c.ctype) (hfc : c.id = conn.fromId → f = c)
    (hto : conn.toId = c.id → c.ctype ≠ "OUTPUT") :
    (if c.id = conn.toId then
        { (if c.id = conn.fromId then (Fp f).compute.1 else Fp c) with
          inputs := ((if c.id = conn.fromId then (Fp f).compute.1 else Fp c)).inputs.setIdx
            conn.toInput ((Fp f).compute.2) }
      else (if c.id = conn.fromId then (Fp f).compute.1 else Fp c))
      = { Fp c with
          inputs := if conn.toId = c.id ∧ c.ctype ≠ "OUTPUT"
            then (Fp c).inputs.setIdx conn.toInput ((Fp f).compute.2)
            else (Fp c).inputs,
          value := if conn.toId = c.id ∧ c.ctype = "OUTPUT" then (Fp f).compute.2
            else (Fp c).value,
          output := if conn.fromId = c.id ∧ isGate c.ctype = true then (Fp f).compute.2
            else (Fp c).output } := by
  by_cases hct : c.id = conn.toId
  · have hcnout : c.ctype ≠ "OUTPUT" := hto hct.symm
    rw [if_pos hct,
      if_pos (show conn.toId = c.id ∧ c.ctype ≠ "OUTPUT" from ⟨hct.symm, hcnout⟩),
      if_neg (show ¬(conn.toId = c.id ∧ c.ctype = "OUTPUT") from fun h => hcnout h.2)]
    by_cases hcf : c.id = conn.fromId
    · rw [if_pos hcf, hfc hcf]
      by_cases hg : isGate c.ctype = true
      · rw [if_pos (show conn.fromId = c.id ∧ isGate c.ctype = true from ⟨hcf.symm, hg⟩),
          compute_fst_gate (show isGate (Fp c).ctype = true from by
            rw [hFpct]; exact hg)]
      · rw [if_neg (show ¬(conn.fromId = c.id ∧ isGate c.ctype = true) from
            fun h => hg h.2),
          compute_fst_nongate (show isGate (Fp c).ctype = false from by
            rw [hFpct]; simpa using hg)]
    · rw [if_neg hcf,
        if_neg (show ¬(conn.fromId = c.id ∧ isGate c.ctype = true) from
          fun h => hcf h.1.symm)]
  · rw [if_neg hct]
    exact stepElement_none Fp conn f c hFpct hfc (fun h => hct h.symm)

theorem connStep_char (cs : List Component) (hnd : (cs.map Component.id).Nodup)
    (Fp : Component → Component)
    (hFpid : ∀ c, (Fp c).id = c.id) (hFpct : ∀ c, (Fp c).ctype = c.ctype)
    (conn : Conn) (f : Component) (hfmem : f ∈ cs) (hfid : f.id = conn.fromId)
    (acc2 : List Conn) :
    connStep (cs.map Fp, acc2) conn
      = (cs.map (fun c =>
            { Fp c with
              inputs := if conn.toId = c.id ∧ c.ctype ≠ "OUTPUT"
                then (Fp c).inputs.setIdx conn.toInput ((Fp f).compute.2)
                else (Fp c).inputs,
              value := if conn.toId = c.id ∧ c.ctype = "OUTPUT"
                then (Fp f).compute.2
                else (Fp c).value,
              output := if conn.fromId = c.id ∧ isGate c.ctype = true
                then (Fp f).compute.2
                else (Fp c).output }),
         acc2 ++ [{ conn with value := (Fp f).compute.2 }]) := by
  have hinj := List.inj_on_of_nodup_map hnd
  have hfc : ∀ c ∈ cs, c.id = conn.fromId → f = c :=
    fun c hc h => hinj hfmem hc (hfid.trans h.symm)
  have hfind1 : findComp (cs.map Fp) conn.fromId = some (Fp f) := by
    rw [findComp_map hFpid]
    rw [show findComp cs conn.fromId = some f from by
      rw [← hfid]; exact findComp_eq_self hnd hfmem]
    rfl
  rw [connStep_from_some hfind1]
  have hupd1 : updateComp (cs.map Fp) conn.fromId (fun _ => (Fp f).compute.1)
      = cs.map (fun c => if c.id = conn.fromId then (Fp f).compute.1 else Fp c) := by
    rw [updateComp_map cs Fp hFpid]
  rw [hupd1]
  have hg1id : ∀ c : Component,
      ((fun c => if c.id = conn.fromId then (Fp f).compute.1 else Fp c) c).id = c.id := by
    intro c
    show (if c.id = conn.fromId then (Fp f).compute.1 else Fp c).id = c.id
    by_cases h : c.id = conn.fromId
    · rw [if_pos h, compute_fst_id, hFpid f, hfid, ← h]
    · rw [if_neg h, hFpid c]
  by_cases hT : ∃ t ∈ cs, t.id = conn.toId
  · obtain ⟨t, htmem, htid⟩ := hT
    have hfind2 : findComp
        (cs.map (fun c => if c.id = conn.fromId then (Fp f).compute.1 else Fp c))
        conn.toId
        = some (if t.id = conn.fromId then (Fp f).compute.1 else Fp t) := by
      rw [findComp_map hg1id]
      rw [show findComp cs conn.toId = some t from by
        rw [← htid]; exact findComp_eq_self hnd htmem]
      rfl
    rw [hfind2]
    dsimp only
    have hg1t : (if t.id = conn.fromId then (Fp f).compute.1 else Fp t).ctype
        = t.ctype := by
      by_cases h : t.id = conn.fromId
      · rw [if_pos h, compute_fst_ctype, hFpct f, hfc t htmem h]
      · rw [if_neg h, hFpct t]
    by_cases hout : t.ctype = "OUTPUT"
    · rw [if_pos (hg1t.trans hout)]
      rw [updateComp_map cs _ hg1id]
      refine congrArg (fun x => (x, acc2 ++ [{ conn with value := (Fp f).compute.2 }]))
        (List.map_congr_left fun c hc => ?_)
      dsimp only
      exact stepElement_out Fp conn f c (hFpct c) (hfc c hc)
        (fun h => by rw [← hinj htmem hc (htid.trans h)]; exact hout)
    · rw [if_neg (fun hh => hout (hg1t.symm.trans hh))]
      rw [updateComp_map cs _ hg1id]
      refine congrArg (fun x => (x, acc2 ++ [{ conn with value := (Fp f).compute.2 }]))
        (List.map_congr_left fun c hc => ?_)
      dsimp only
      exact stepElement_in Fp conn f c (hFpct c) (hfc c hc)
        (fun h hcout => hout (by rw [hinj htmem hc (htid.trans h)]; exact hcout))
  · have hfind2 : findComp
        (cs.map (fun c => if c.id = conn.fromId then (Fp f).compute.1 else Fp c))
        conn.toId = none := by
      rw [findComp_map hg1id]
      rw [findComp_none (fun c hc h => hT ⟨c, hc, h⟩)]
      rfl
    rw [hfind2]
    dsimp only
    refine congrArg (fun x => (x, acc2 ++ [{ conn with value := (Fp f).compute.2 }]))
      (List.map_congr_left fun c hc => ?_)
    dsimp only
    exact stepElement_none Fp conn f c (hFpct c) (hfc c hc)
      (fun h => hT ⟨c, hc, h.symm⟩)

theorem phase2_char (cs : List Component) (hnd : (cs.map Component.id).Nodup) :
    ∀ P : List Conn, (∀ conn ∈ P, ∃ f ∈ cs, f.id = conn.fromId) →
      (P.foldl connStep (cs, [])).1
          = cs.map (phase2CharFn (P.zip (phase2Vals cs P)))
        ∧ (P.foldl connStep (cs, [])).2
            = List.zipWith (fun conn v => { conn with value := v }) P (phase2Vals cs P)
        ∧ (phase2Vals cs P).length = P.length := by
  intro P
  induction P using List.reverseRecOn with
  | nil =>
    intro _
    refine ⟨?_, rfl, rfl⟩
    show cs = cs.map (phase2CharFn (List.zip [] (phase2Vals cs [])))
    rw [show List.zip ([] : List Conn) (phase2Vals cs []) = [] from rfl,
      show cs.map (phase2CharFn []) = cs.map id from
        List.map_congr_left fun c _ => phase2CharFn_nil c,
      List.map_id]
  | append_singleton P' conn IH =>
    intro hfrom
    obtain ⟨h1, h2, h3⟩ := IH (fun c hc => hfrom c (List.mem_append_left _ hc))
    obtain ⟨f, hfmem, hfid⟩ :=
      hfrom conn (List.mem_append_right _ (List.mem_singleton.mpr rfl))
    have hpair : P'.foldl connStep (cs, [])
        = (cs.map (phase2CharFn (P'.zip (phase2Vals cs P'))),
           List.zipWith (fun conn v => { conn with value := v }) P'
             (phase2Vals cs P')) := by
      rw [← h1, ← h2]
    have hstep : (P' ++ [conn]).foldl connStep (cs, [])
        = (cs.map (fun c =>
              { phase2CharFn (P'.zip (phase2Vals cs P')) c with
                inputs := if conn.toId = c.id ∧ c.ctype ≠ "OUTPUT"
                  then (phase2CharFn (P'.zip (phase2Vals cs P')) c).inputs.setIdx
                    conn.toInput
                    ((phase2CharFn (P'.zip (phase2Vals cs P')) f).compute.2)
                  else (phase2CharFn (P'.zip (phase2Vals cs P')) c).inputs,
                value := if conn.toId = c.id ∧ c.ctype = "OUTPUT"
                  then (phase2CharFn (P'.zip (phase2Vals cs P')) f).compute.2
                  else (phase2CharFn (P'.zip (phase2Vals cs P')) c).value,
                output := if conn.fromId = c.id ∧ isGate c.ctype = true
                  then (phase2CharFn (P'.zip (phase2Vals cs P')) f).compute.2
                  else (phase2CharFn (P'.zip (phase2Vals cs P')) c).output }),
           List.zipWith (fun conn v => { conn with value := v }) P'
               (phase2Vals cs P')
             ++ [{ conn with
                   value := (phase2CharFn (P'.zip (phase2Vals cs P')) f).compute.2 }]) := by
      rw [List.foldl_append, List.foldl_cons, List.foldl_nil, hpair,
        connStep_char cs hnd _ (fun c => phase2CharFn_id _ c)
          (fun c => phase2CharFn_ctype _ c) conn f hfmem hfid _]
    have hvals : phase2Vals cs (P' ++ [conn])
        = phase2Vals cs P'
          ++ [(phase2CharFn (P'.zip (phase2Vals cs P')) f).compute.2] := by
      show ((P' ++ [conn]).foldl connStep (cs, [])).2.map Conn.value = _
      rw [hstep]
      dsimp only
      rw [List.map_append, zipWith_setValue_map_value _ _ h3]
      rfl
    have hzip : (P' ++ [conn]).zip (phase2Vals cs (P' ++ [conn]))
        = P'.zip (phase2Vals cs P')
          ++ [(conn, (phase2CharFn (P'.zip (phase2Vals cs P')) f).compute.2)] := by
      rw [hvals, List.zip_append h3.symm]
      rfl
    refine ⟨?_, ?_, ?_⟩
    · rw [hstep, hzip]
      dsimp only
      refine List.map_congr_left fun c hc => ?_
      rw [phase2CharFn_snoc2]
    · rw [hstep, hvals]
      dsimp only
      rw [List.zipWith_append]
      · rfl
      · exact h3.symm
    · rw [hvals]
      simp [h3]

theorem simulatePhase1_map :
    ∀ (sorted comps : List Component),
      simulatePhase1 sorted comps
        = comps.map (fun d => sorted.foldl phase1Step d) := by
  intro sorted
  induction sorted with
  | nil =>
    intro comps
    simp [simulatePhase1]
  | cons c sorted IH =>
    intro comps
    show simulatePhase1 sorted
        (if c.ctype = "INPUT" then comps
          else updateComp comps c.id (fun d => d.compute.1)) = _
    by_cases hct : c.ctype = "INPUT"
    · rw [if_pos hct, IH]
      refine List.map_congr_left fun d _ => ?_
      rw [List.foldl_cons,
        show phase1Step d c = d from by unfold phase1Step; rw [if_pos hct]]
    · rw [if_neg hct, IH]
      unfold updateComp
      rw [List.map_map]
      refine List.map_congr_left fun d _ => ?_
      show sorted.foldl phase1Step (if d.id = c.id then d.compute.1 else d)
          = (c :: sorted).foldl phase1Step d
      rw [List.foldl_cons,
        show phase1Step d c = if d.id = c.id then d.compute.1 else d from by
          unfold phase1Step; rw [if_neg hct]]

theorem phase1_fold_fixed :
    ∀ (l : List Component) (d : Component), (∀ e ∈ l, ¬(d.id = e.id)) →
      l.foldl phase1Step d = d := by
  intro l
  induction l with
  | nil => intro d _; rfl
  | cons e l IH =>
    intro d h
    rw [List.foldl_cons,
      show phase1Step d e = d from by
        unfold phase1Step
        by_cases he : e.ctype = "INPUT"
        · rw [if_pos he]
        · rw [if_neg he, if_neg (h e (List.mem_cons_self e l))]]
    exact IH d (fun e' he' => h e' (List.mem_cons_of_mem _ he'))

theorem phase1_eq_map (comps sorted : List Component)
    (hnd : (comps.map Component.id).Nodup) (hperm : sorted.Perm comps) :
    simulatePhase1 sorted comps
      = comps.map (fun c => if c.ctype = "INPUT" then c else c.compute.1) := by
  rw [simulatePhase1_map]
  refine List.map_congr_left fun c hc => ?_
  have hcs : c ∈ sorted := hperm.mem_iff.mpr hc
  obtain ⟨l1, l2, hdec⟩ := List.append_of_mem hcs
  have hnds : ((l1 ++ c :: l2).map Component.id).Nodup := by
    rw [← hdec]
    exact ((hperm.map Component.id).nodup_iff).mpr hnd
  rw [List.map_append] at hnds
  have hsplit := List.nodup_append.mp hnds
  have h1 : ∀ e ∈ l1, ¬(c.id = e.id) := by
    intro e he heq
    exact hsplit.2.2 (List.mem_map.mpr ⟨e, he, heq.symm⟩) (by simp)
  have h2 : ∀ e ∈ l2, ¬(c.id = e.id) := by
    intro e he heq
    have hcons := hsplit.2.1
    rw [List.map_cons, List.nodup_cons] at hcons
    exact hcons.1 (List.mem_map.mpr ⟨e, he, heq.symm⟩)
  rw [hdec, List.foldl_append, phase1_fold_fixed l1 c h1, List.foldl_cons]
  by_cases hct : c.ctype = "INPUT"
  · rw [show phase1Step c c = c from by unfold phase1Step; rw [if_pos hct],
      phase1_fold_fixed l2 c h2, if_pos hct]
  · rw [show phase1Step c c = c.compute.1 from by
        unfold phase1Step
        rw [if_neg hct, if_pos rfl],
      phase1_fold_fixed l2 c.compute.1 (fun e he => by
        rw [compute_fst_id]; exact h2 e he),
      if_neg hct]

theorem compute_fst_x (c : Component) : (c.compute.1).x = c.x := by
  by_cases h : isGate c.ctype = true
  · rw [compute_fst_gate h]
  · rw [compute_fst_nongate (by simpa using h)]

theorem compute_fst_y (c : Component) : (c.compute.1).y = c.y := by
  by_cases h : isGate c.ctype = true
  · rw [compute_fst_gate h]
  · rw [compute_fst_nongate (by simpa using h)]

theorem compute_fst_label (c : Component) : (c.compute.1).label = c.label := by
  by_cases h : isGate c.ctype = true
  · rw [compute_fst_gate h]
  · rw [compute_fst_nongate (by simpa using h)]

theorem compute_fst_selected (c : Component) :
    (c.compute.1).selected = c.selected := by
  by_cases h : isGate c.ctype = true
  · rw [compute_fst_gate h]
  · rw [compute_fst_nongate (by simpa using h)]

theorem Component_ext {a b : Component} (h1 : a.id = b.id) (h2 : a.ctype = b.ctype)
    (h3 : a.x = b.x) (h4 : a.y = b.y) (h5 : a.label = b.label)
    (h6 : a.inputs = b.inputs) (h7 : a.output = b.output) (h8 : a.value = b.value)
    (h9 : a.selected = b.selected) : a = b := by
  cases a
  cases b
  dsimp only at h1 h2 h3 h4 h5 h6 h7 h8 h9
  subst h1; subst h2; subst h3; subst h4; subst h5; subst h6; subst h7; subst h8
  subst h9
  rfl

theorem inputWritesFor_key (Z : List (Conn × Val)) (c : Component) :
    inputWritesFor Z c
      = (Z.map connKey).filterMap (fun k =>
          if k.2.1 = c.id ∧ c.ctype ≠ "OUTPUT"
            then some (k.2.2.1, k.2.2.2) else none) := by
  rw [List.filterMap_map]
  rfl

theorem valueWritesFor_key (Z : List (Conn × Val)) (c : Component) :
    valueWritesFor Z c
      = (Z.map connKey).filterMap (fun k =>
          if k.2.1 = c.id ∧ c.ctype = "OUTPUT" then some k.2.2.2 else none) := by
  rw [List.filterMap_map]
  rfl

theorem outWritesFor_key (Z : List (Conn × Val)) (c : Component) :
    outWritesFor Z c
      = (Z.map connKey).filterMap (fun k =>
          if k.1 = c.id ∧ isGate c.ctype = true then some k.2.2.2 else none) := by
  rw [List.filterMap_map]
  rfl

theorem inputWritesFor_congr {Z Z' : List (Conn × Val)} {c c' : Component}
    (hk : Z'.map connKey = Z.map connKey) (hid : c'.id = c.id)
    (hct : c'.ctype = c.ctype) :
    inputWritesFor Z' c' = inputWritesFor Z c := by
  rw [inputWritesFor_key, inputWritesFor_key, hk, hid, hct]

theorem valueWritesFor_congr {Z Z' : List (Conn × Val)} {c c' : Component}
    (hk : Z'.map connKey = Z.map connKey) (hid : c'.id = c.id)
    (hct : c'.ctype = c.ctype) :
    valueWritesFor Z' c' = valueWritesFor Z c := by
  rw [valueWritesFor_key, valueWritesFor_key, hk, hid, hct]

theorem outWritesFor_congr {Z Z' : List (Conn × Val)} {c c' : Component}
    (hk : Z'.map connKey = Z.map connKey) (hid : c'.id = c.id)
    (hct : c'.ctype = c.ctype) :
    outWritesFor Z' c' = outWritesFor Z c := by
  rw [outWritesFor_key, outWritesFor_key, hk, hid, hct]

theorem connKey_setConnVals_zip :
    ∀ (P : List Conn) (u w : List Val), u.length = P.length →
      ((setConnVals P u).zip w).map connKey = (P.zip w).map connKey := by
  intro P
  induction P with
  | nil => intro u w _; rfl
  | cons conn P IH =>
    intro u w hlen
    cases u with
    | nil => simp at hlen
    | cons v u =>
      cases w with
      | nil => rfl
      | cons x w =>
        show connKey ({ conn with value := v }, x)
              :: ((setConnVals P u).zip w).map connKey
            = connKey (conn, x) :: ((P.zip w).map connKey)
        exact congrArg₂ List.cons rfl (IH u w (Nat.succ_injective hlen))

theorem setConnVals_setConnVals :
    ∀ (P : List Conn) (u w : List Val), u.length = P.length →
      setConnVals (setConnVals P u) w = setConnVals P w := by
  intro P
  induction P with
  | nil => intro u w _; rfl
  | cons conn P IH =>
    intro u w hlen
    cases u with
    | nil => simp at hlen
    | cons v u =>
      cases w with
      | nil => rfl
      | cons x w =>
        show { ({ conn with value := v } : Conn) with value := x }
              :: setConnVals (setConnVals P u) w
            = { conn with value := x } :: setConnVals P w
        exact congrArg₂ List.cons rfl (IH u w (Nat.succ_injective hlen))

theorem setConnVals_length (P : List Conn) (vs : List Val) :
    (setConnVals P vs).length = min P.length vs.length := by
  simp [setConnVals]

theorem mem_setConnVals {conn' : Conn} :
    ∀ {P : List Conn} {vs : List Val}, conn' ∈ setConnVals P vs →
      ∃ conn ∈ P, conn'.fromId = conn.fromId ∧ conn'.toId = conn.toId := by
  intro P
  induction P with
  | nil => intro vs h; simp [setConnVals] at h
  | cons conn P IH =>
    intro vs h
    cases vs with
    | nil => simp [setConnVals] at h
    | cons v vs =>
      rcases List.mem_cons.mp h with rfl | htl
      · exact ⟨conn, List.mem_cons_self _ _, rfl, rfl⟩
      · obtain ⟨c, hc, hf, ht⟩ := IH htl
        exact ⟨c, List.mem_cons_of_mem _ hc, hf, ht⟩

theorem setConnVals_get_skel :
    ∀ (P : List Conn) (vs : List Val) (i : Nat)
      (hi : i < (setConnVals P vs).length) (hip : i < P.length),
      ((setConnVals P vs).get ⟨i, hi⟩).fromId = (P.get ⟨i, hip⟩).fromId
        ∧ ((setConnVals P vs).get ⟨i, hi⟩).toId = (P.get ⟨i, hip⟩).toId := by
  intro P
  induction P with
  | nil => intro vs i hi hip; exact absurd hip (by simp)
  | cons conn P IH =>
    intro vs i hi hip
    cases vs with
    | nil => exact absurd hi (by simp [setConnVals])
    | cons v vs =>
      cases i with
      | zero => exact ⟨rfl, rfl⟩
      | succ i =>
        exact IH vs i (Nat.lt_of_succ_lt_succ hi) (Nat.lt_of_succ_lt_succ hip)

theorem connTopo_setConnVals {P : List Conn} {vs : List Val} (h : ConnTopo P) :
    ConnTopo (setConnVals P vs) := by
  intro i j hi hj heq
  have hlen : (setConnVals P vs).length ≤ P.length := by
    rw [setConnVals_length]
    exact min_le_left _ _
  have hip : i < P.length := lt_of_lt_of_le hi hlen
  have hjp : j < P.length := lt_of_lt_of_le hj hlen
  refine h i j hip hjp ?_
  rw [← (setConnVals_get_skel P vs i hi hip).2,
    ← (setConnVals_get_skel P vs j hj hjp).1]
  exact heq

theorem phase2Vals_snoc (cs : List Component)
    (hnd : (cs.map Component.id).Nodup) (P' : List Conn) (conn : Conn)
    (hfrom' : ∀ c ∈ P', ∃ f ∈ cs, f.id = c.fromId)
    (f : Component) (hfmem : f ∈ cs) (hfid : f.id = conn.fromId) :
    phase2Vals cs (P' ++ [conn])
      = phase2Vals cs P'
        ++ [(phase2CharFn (P'.zip (phase2Vals cs P')) f).compute.2] := by
  obtain ⟨h1, h2, h3⟩ := phase2_char cs hnd P' hfrom'
  have hpair : P'.foldl connStep (cs, [])
      = (cs.map (phase2CharFn (P'.zip (phase2Vals cs P'))),
         List.zipWith (fun conn v => { conn with value := v }) P'
           (phase2Vals cs P')) := by
    rw [← h1, ← h2]
  show ((P' ++ [conn]).foldl connStep (cs, [])).2.map Conn.value = _
  rw [List.foldl_append, List.foldl_cons, List.foldl_nil, hpair,
    connStep_char cs hnd _ (fun c => phase2CharFn_id _ c)
      (fun c => phase2CharFn_ctype _ c) conn f hfmem hfid _]
  dsimp only
  rw [List.map_append, zipWith_setValue_map_value _ _ h3]
  rfl

theorem phase2Vals_take (cs : List Component)
    (hnd : (cs.map Component.id).Nodup) :
    ∀ P : List Conn, (∀ c ∈ P, ∃ f ∈ cs, f.id = c.fromId) →
      ∀ j, phase2Vals cs (P.take j) = (phase2Vals cs P).take j := by
  intro P
  induction P using List.reverseRecOn with
  | nil =>
    intro _ j
    rw [List.take_nil, show phase2Vals cs [] = [] from rfl, List.take_nil]
  | append_singleton P' conn IH =>
    intro hfrom j
    have hfrom' : ∀ c ∈ P', ∃ f ∈ cs, f.id = c.fromId :=
      fun c hc => hfrom c (List.mem_append_left _ hc)
    obtain ⟨f, hfmem, hfid⟩ :=
      hfrom conn (List.mem_append_right _ (List.mem_singleton.mpr rfl))
    have h3 : (phase2Vals cs P').length = P'.length :=
      (phase2_char cs hnd P' hfrom').2.2
    have hsnoc := phase2Vals_snoc cs hnd P' conn hfrom' f hfmem hfid
    by_cases hj : j ≤ P'.length
    · rw [List.take_append_of_le_length hj, IH hfrom' j, hsnoc,
        List.take_append_of_le_length (by rw [h3]; exact hj)]
    · push_neg at hj
      rw [List.take_of_length_le (show (P' ++ [conn]).length ≤ j from by
        simp only [List.length_append, List.length_cons, List.length_nil]
        omega)]
      rw [hsnoc, List.take_of_length_le (by
        simp only [List.length_append, List.length_cons, List.length_nil, h3]
        omega)]

theorem inputWritesFor_append (A B : List (Conn × Val)) (c : Component) :
    inputWritesFor (A ++ B) c = inputWritesFor A c ++ inputWritesFor B c := by
  unfold inputWritesFor
  rw [List.filterMap_append]

theorem valueWritesFor_append (A B : List (Conn × Val)) (c : Component) :
    valueWritesFor (A ++ B) c = valueWritesFor A c ++ valueWritesFor B c := by
  unfold valueWritesFor
  rw [List.filterMap_append]

theorem inputWritesFor_none (Z : List (Conn × Val)) (c : Component)
    (h : ∀ q ∈ Z, ¬(q.1.toId = c.id)) : inputWritesFor Z c = [] := by
  unfold inputWritesFor
  exact List.filterMap_eq_nil_iff.mpr
    (fun q hq => if_neg (fun hc => h q hq hc.1))

theorem valueWritesFor_none (Z : List (Conn × Val)) (c : Component)
    (h : ∀ q ∈ Z, ¬(q.1.toId = c.id)) : valueWritesFor Z c = [] := by
  unfold valueWritesFor
  exact List.filterMap_eq_nil_iff.mpr
    (fun q hq => if_neg (fun hc => h q hq hc.1))

theorem writes_cut {P : List Conn} (htopo : ConnTopo P) {j : Nat}
    (hj : j < P.length) (vs : List Val) (hlen : vs.length = P.length) :
    ∀ q ∈ (P.zip vs).drop j, ¬(q.1.toId = (P.get ⟨j, hj⟩).fromId) := by
  intro q hq heq
  obtain ⟨⟨k, hk⟩, hget⟩ := List.mem_iff_get.mp hq
  have hzl : (P.zip vs).length = P.length := by
    rw [List.length_zip, hlen]
    exact Nat.min_self _
  have hjk : j + k < P.length := by
    have hk2 := hk
    rw [List.length_drop, hzl] at hk2
    omega
  have hq2 : q = (P.get ⟨j + k, hjk⟩, vs.get ⟨j + k, by rw [hlen]; exact hjk⟩) := by
    rw [← hget]
    show ((P.zip vs).drop j).get ⟨k, hk⟩ = _
    rw [List.get_eq_getElem, List.getElem_drop, List.getElem_zip]
    rfl
  rw [hq2] at heq
  have hlt := htopo (j + k) j hjk hj heq
  omega

theorem zip_take_take (P : List Conn) (vs : List Val) (j : Nat) :
    (P.zip vs).take j = (P.take j).zip (vs.take j) := by
  rw [List.zip_eq_zipWith, List.zip_eq_zipWith, List.take_zipWith]

theorem inputWritesFor_cut {P : List Conn} (htopo : ConnTopo P) {j : Nat}
    (hj : j < P.length) (vs : List Val) (hlen : vs.length = P.length)
    {f : Component} (hfid : f.id = (P.get ⟨j, hj⟩).fromId) :
    inputWritesFor ((P.take j).zip (vs.take j)) f = inputWritesFor (P.zip vs) f := by
  have hsplit : P.zip vs = (P.take j).zip (vs.take j) ++ (P.zip vs).drop j := by
    rw [← zip_take_take]
    exact (List.take_append_drop j (P.zip vs)).symm
  rw [hsplit, inputWritesFor_append,
    inputWritesFor_none _ _ (fun q hq hc =>
      writes_cut htopo hj vs hlen q hq (hfid ▸ hc)),
    List.append_nil]

theorem valueWritesFor_cut {P : List Conn} (htopo : ConnTopo P) {j : Nat}
    (hj : j < P.length) (vs : List Val) (hlen : vs.length = P.length)
    {f : Component} (hfid : f.id = (P.get ⟨j, hj⟩).fromId) :
    valueWritesFor ((P.take j).zip (vs.take j)) f = valueWritesFor (P.zip vs) f := by
  have hsplit : P.zip vs = (P.take j).zip (vs.take j) ++ (P.zip vs).drop j := by
    rw [← zip_take_take]
    exact (List.take_append_drop j (P.zip vs)).symm
  rw [hsplit, valueWritesFor_append,
    valueWritesFor_none _ _ (fun q hq hc =>
      writes_cut htopo hj vs hlen q hq (hfid ▸ hc)),
    List.append_nil]

theorem setConnVals_take (P : List Conn) (vs : List Val) (j : Nat) :
    (setConnVals P vs).take j = setConnVals (P.take j) (vs.take j) := by
  unfold setConnVals
  rw [List.take_zipWith]

theorem align_compute_snd
    (Z1full Z1j Z2j : List (Conn × Val)) (c1 c2 : Component)
    (hc2 : c2 = if c1.ctype = "INPUT" then phase2CharFn Z1full c1
      else (phase2CharFn Z1full c1).compute.1)
    (hWfull : inputWritesFor Z1full c1 = inputWritesFor Z1j c1)
    (hVfull : valueWritesFor Z1full c1 = valueWritesFor Z1j c1)
    (hW2 : inputWritesFor Z2j c2 = inputWritesFor Z1j c1)
    (hV2 : valueWritesFor Z2j c2 = valueWritesFor Z1j c1) :
    (phase2CharFn Z2j c2).compute.2 = (phase2CharFn Z1j c1).compute.2 := by
  rw [compute_snd, compute_snd]
  have hct : (phase2CharFn Z2j c2).ctype = (phase2CharFn Z1j c1).ctype := by
    rw [phase2CharFn_ctype, phase2CharFn_ctype, hc2]
    by_cases h : c1.ctype = "INPUT"
    · rw [if_pos h]
      exact phase2CharFn_ctype _ _
    · rw [if_neg h, compute_fst_ctype]
      exact phase2CharFn_ctype _ _
  have hin : (phase2CharFn Z2j c2).inputs = (phase2CharFn Z1j c1).inputs := by
    show applyWrites c2.inputs (inputWritesFor Z2j c2)
        = applyWrites c1.inputs (inputWritesFor Z1j c1)
    rw [hW2]
    have hc2in : c2.inputs = applyWrites c1.inputs (inputWritesFor Z1full c1) := by
      rw [hc2]
      by_cases h : c1.ctype = "INPUT"
      · rw [if_pos h]
        rfl
      · rw [if_neg h, compute_fst_inputs]
        rfl
    rw [hc2in, hWfull, applyWrites_idem]
  have hv : (phase2CharFn Z2j c2).value = (phase2CharFn Z1j c1).value := by
    show (valueWritesFor Z2j c2).getLast?.getD c2.value
        = (valueWritesFor Z1j c1).getLast?.getD c1.value
    rw [hV2]
    have hc2v : c2.value = (valueWritesFor Z1full c1).getLast?.getD c1.value := by
      rw [hc2]
      by_cases h : c1.ctype = "INPUT"
      · rw [if_pos h]
        rfl
      · rw [if_neg h, compute_fst_value]
        rfl
    rw [hc2v, hVfull]
    cases (valueWritesFor Z1j c1).getLast? <;> rfl
  rw [hct, hin, hv]

theorem phase2Vals_align (cs : List Component)
    (hnd : (cs.map Component.id).Nodup) (P : List Conn)
    (hfrom : ∀ c ∈ P, ∃ f ∈ cs, f.id = c.fromId)
    (htopo : ConnTopo P)
    (g : Component → Component)
    (hg : ∀ c, g c = if c.ctype = "INPUT"
      then phase2CharFn (P.zip (phase2Vals cs P)) c
      else (phase2CharFn (P.zip (phase2Vals cs P)) c).compute.1) :
    ∀ j, phase2Vals (cs.map g) ((setConnVals P (phase2Vals cs P)).take j)
      = (phase2Vals cs P).take j := by
  have hlen1 : (phase2Vals cs P).length = P.length :=
    (phase2_char cs hnd P hfrom).2.2
  have hgid : ∀ c, (g c).id = c.id := by
    intro c
    rw [hg c]
    by_cases h : c.ctype = "INPUT"
    · rw [if_pos h, phase2CharFn_id]
    · rw [if_neg h, compute_fst_id, phase2CharFn_id]
  have hgct : ∀ c, (g c).ctype = c.ctype := by
    intro c
    rw [hg c]
    by_cases h : c.ctype = "INPUT"
    · rw [if_pos h, phase2CharFn_ctype]
    · rw [if_neg h, compute_fst_ctype, phase2CharFn_ctype]
  have hnd2 : ((cs.map g).map Component.id).Nodup := by
    rw [List.map_map,
      show Component.id ∘ g = Component.id from funext fun c => hgid c]
    exact hnd
  have hQlen : (setConnVals P (phase2Vals cs P)).length = P.length := by
    rw [setConnVals_length, hlen1]
    exact Nat.min_self _
  have hfromQ : ∀ conn ∈ setConnVals P (phase2Vals cs P),
      ∃ f ∈ cs.map g, f.id = conn.fromId := by
    intro conn hconn
    obtain ⟨c, hc, hfrom2, _⟩ := mem_setConnVals hconn
    obtain ⟨f, hfmem, hfid⟩ := hfrom c hc
    exact ⟨g f, List.mem_map_of_mem g hfmem, by rw [hgid, hfid, hfrom2]⟩
  intro j
  induction j with
  | zero => rfl
  | succ j IH =>
    by_cases hj : j < P.length
    · have hjQ : j < (setConnVals P (phase2Vals cs P)).length := by
        rw [hQlen]
        exact hj
      have hjv : j < (phase2Vals cs P).length := by
        rw [hlen1]
        exact hj
      have htakeQ : (setConnVals P (phase2Vals cs P)).take (j+1)
          = (setConnVals P (phase2Vals cs P)).take j
            ++ [(setConnVals P (phase2Vals cs P)).get ⟨j, hjQ⟩] := by
        rw [List.get_eq_getElem]
        exact (List.take_concat_get' _ j hjQ).symm
      have htakeP : P.take (j+1) = P.take j ++ [P.get ⟨j, hj⟩] := by
        rw [List.get_eq_getElem]
        exact (List.take_concat_get' _ j hj).symm
      obtain ⟨f1, hf1mem, hf1id⟩ := hfrom (P.get ⟨j, hj⟩) (List.get_mem P j hj)
      have hf2id : (g f1).id = ((setConnVals P (phase2Vals cs P)).get ⟨j, hjQ⟩).fromId := by
        rw [hgid, (setConnVals_get_skel P (phase2Vals cs P) j hjQ hj).1]
        exact hf1id
      have hfromQj : ∀ c ∈ (setConnVals P (phase2Vals cs P)).take j,
          ∃ f ∈ cs.map g, f.id = c.fromId :=
        fun c hc => hfromQ c (List.take_subset j _ hc)
      have hfromPj : ∀ c ∈ P.take j, ∃ f ∈ cs, f.id = c.fromId :=
        fun c hc => hfrom c (List.take_subset j _ hc)
      rw [htakeQ,
        phase2Vals_snoc (cs.map g) hnd2 _ _ hfromQj (g f1)
          (List.mem_map_of_mem g hf1mem) hf2id,
        IH]
      have hval : (phase2Vals cs P).take (j+1)
          = (phase2Vals cs P).take j
            ++ [(phase2CharFn ((P.take j).zip ((phase2Vals cs P).take j)) f1).compute.2] := by
        rw [← phase2Vals_take cs hnd P hfrom (j+1), htakeP,
          phase2Vals_snoc cs hnd _ _ hfromPj f1 hf1mem hf1id,
          phase2Vals_take cs hnd P hfrom j]
      rw [hval]
      refine congrArg (fun x => (phase2Vals cs P).take j ++ [x]) ?_
      have hklen : ((phase2Vals cs P).take j).length = (P.take j).length := by
        rw [List.length_take, List.length_take, hlen1]
      refine align_compute_snd (P.zip (phase2Vals cs P))
        ((P.take j).zip ((phase2Vals cs P).take j))
        (((setConnVals P (phase2Vals cs P)).take j).zip ((phase2Vals cs P).take j))
        f1 (g f1) (hg f1)
        (inputWritesFor_cut htopo hj (phase2Vals cs P) hlen1 hf1id).symm
        (valueWritesFor_cut htopo hj (phase2Vals cs P) hlen1 hf1id).symm
        ?_ ?_
      · refine inputWritesFor_congr ?_ (hgid f1) (hgct f1)
        rw [setConnVals_take]
        exact connKey_setConnVals_zip (P.take j) ((phase2Vals cs P).take j)
          ((phase2Vals cs P).take j) hklen
      · refine valueWritesFor_congr ?_ (hgid f1) (hgct f1)
        rw [setConnVals_take]
        exact connKey_setConnVals_zip (P.take j) ((phase2Vals cs P).take j)
          ((phase2Vals cs P).take j) hklen
    · push_neg at hj
      rw [List.take_of_length_le (by rw [hQlen]; omega),
        List.take_of_length_le (by rw [hlen1]; omega)]
      rw [List.take_of_length_le (by rw [hQlen]; omega),
        List.take_of_length_le (by rw [hlen1]; omega)] at IH
      exact IH

theorem phase2CharFn_x (pairs : List (Conn × Val)) (c : Component) :
    (phase2CharFn pairs c).x = c.x := rfl

theorem phase2CharFn_y (pairs : List (Conn × Val)) (c : Component) :
    (phase2CharFn pairs c).y = c.y := rfl

theorem phase2CharFn_label (pairs : List (Conn × Val)) (c : Component) :
    (phase2CharFn pairs c).label = c.label := rfl

theorem phase2CharFn_selected (pairs : List (Conn × Val)) (c : Component) :
    (phase2CharFn pairs c).selected = c.selected := rfl

theorem outWritesFor_nongate (Z : List (Conn × Val)) (c : Component)
    (h : isGate c.ctype = false) : outWritesFor Z c = [] := by
  unfold outWritesFor
  exact List.filterMap_eq_nil_iff.mpr
    (fun q _ => if_neg (fun hc => by rw [h] at hc; exact Bool.noConfusion hc.2))

theorem run_element_stable
    (Z1 Z2 Z3 : List (Conn × Val)) (c1 c2 c3 : Component)
    (hc2 : c2 = if c1.ctype = "INPUT" then phase2CharFn Z1 c1
      else (phase2CharFn Z1 c1).compute.1)
    (hc3 : c3 = if c2.ctype = "INPUT" then phase2CharFn Z2 c2
      else (phase2CharFn Z2 c2).compute.1)
    (hW21 : inputWritesFor Z2 c2 = inputWritesFor Z1 c1)
    (hV21 : valueWritesFor Z2 c2 = valueWritesFor Z1 c1)
    (hW32 : inputWritesFor Z3 c3 = inputWritesFor Z2 c2)
    (hV32 : valueWritesFor Z3 c3 = valueWritesFor Z2 c2)
    (hO32 : outWritesFor Z3 c3 = outWritesFor Z2 c2) :
    phase2CharFn Z3 c3 = phase2CharFn Z2 c2 := by
  have hc2ct : c2.ctype = c1.ctype := by
    rw [hc2]
    by_cases h : c1.ctype = "INPUT"
    · rw [if_pos h, phase2CharFn_ctype]
    · rw [if_neg h, compute_fst_ctype, phase2CharFn_ctype]
  have hc3id : c3.id = c2.id := by
    rw [hc3]
    by_cases h : c2.ctype = "INPUT"
    · rw [if_pos h, phase2CharFn_id]
    · rw [if_neg h, compute_fst_id, phase2CharFn_id]
  have hc3ct : c3.ctype = c2.ctype := by
    rw [hc3]
    by_cases h : c2.ctype = "INPUT"
    · rw [if_pos h, phase2CharFn_ctype]
    · rw [if_neg h, compute_fst_ctype, phase2CharFn_ctype]
  have hc3x : c3.x = c2.x := by
    rw [hc3]
    by_cases h : c2.ctype = "INPUT"
    · rw [if_pos h, phase2CharFn_x]
    · rw [if_neg h, compute_fst_x, phase2CharFn_x]
  have hc3y : c3.y = c2.y := by
    rw [hc3]
    by_cases h : c2.ctype = "INPUT"
    · rw [if_pos h, phase2CharFn_y]
    · rw [if_neg h, compute_fst_y, phase2CharFn_y]
  have hc3l : c3.label = c2.label := by
    rw [hc3]
    by_cases h : c2.ctype = "INPUT"
    · rw [if_pos h, phase2CharFn_label]
    · rw [if_neg h, compute_fst_label, phase2CharFn_label]
  have hc3s : c3.selected = c2.selected := by
    rw [hc3]
    by_cases h : c2.ctype = "INPUT"
    · rw [if_pos h, phase2CharFn_selected]
    · rw [if_neg h, compute_fst_selected, phase2CharFn_selected]
  refine Component_ext ?_ ?_ ?_ ?_ ?_ ?_ ?_ ?_ ?_
  · rw [phase2CharFn_id, phase2CharFn_id]
    exact hc3id
  · rw [phase2CharFn_ctype, phase2CharFn_ctype]
    exact hc3ct
  · rw [phase2CharFn_x, phase2CharFn_x]
    exact hc3x
  · rw [phase2CharFn_y, phase2CharFn_y]
    exact hc3y
  · rw [phase2CharFn_label, phase2CharFn_label]
    exact hc3l
  · show applyWrites c3.inputs (inputWritesFor Z3 c3)
        = applyWrites c2.inputs (inputWritesFor Z2 c2)
    rw [hW32]
    have hc3in : c3.inputs = applyWrites c2.inputs (inputWritesFor Z2 c2) := by
      rw [hc3]
      by_cases h : c2.ctype = "INPUT"
      · rw [if_pos h]
        rfl
      · rw [if_neg h, compute_fst_inputs]
        rfl
    rw [hc3in, applyWrites_idem]
  · show (outWritesFor Z3 c3).getLast?.getD c3.output
        = (outWritesFor Z2 c2).getLast?.getD c2.output
    rw [hO32]
    by_cases hgate : isGate c2.ctype = true
    · cases hlast : (outWritesFor Z2 c2).getLast? with
      | some o => rfl
      | none =>
        show c3.output = c2.output
        have hnotin2 : ¬(c2.ctype = "INPUT") := by
          intro h
          rw [h] at hgate
          exact absurd hgate (by decide)
        have hnotin1 : ¬(c1.ctype = "INPUT") := fun h => hnotin2 (hc2ct.trans h)
        have hgate1 : isGate c1.ctype = true := by
          rw [← hc2ct]
          exact hgate
        have hc3o : c3.output = (phase2CharFn Z2 c2).compute.2 := by
          rw [hc3, if_neg hnotin2,
            compute_fst_gate (show isGate (phase2CharFn Z2 c2).ctype = true from by
              rw [phase2CharFn_ctype]; exact hgate)]
        have hc2o : c2.output = (phase2CharFn Z1 c1).compute.2 := by
          rw [hc2, if_neg hnotin1,
            compute_fst_gate (show isGate (phase2CharFn Z1 c1).ctype = true from by
              rw [phase2CharFn_ctype]; exact hgate1)]
        rw [hc3o, hc2o]
        exact align_compute_snd Z1 Z1 Z2 c1 c2 hc2 rfl rfl hW21 hV21
    · have hnil : outWritesFor Z2 c2 = [] :=
        outWritesFor_nongate Z2 c2 (by simpa using hgate)
      rw [hnil]
      show c3.output = c2.output
      rw [hc3]
      by_cases h : c2.ctype = "INPUT"
      · rw [if_pos h]
        show (outWritesFor Z2 c2).getLast?.getD c2.output = c2.output
        rw [hnil]
        rfl
      · rw [if_neg h,
          compute_fst_nongate (show isGate (phase2CharFn Z2 c2).ctype = false from by
            rw [phase2CharFn_ctype]; simpa using hgate)]
        show (outWritesFor Z2 c2).getLast?.getD c2.output = c2.output
        rw [hnil]
        rfl
  · show (valueWritesFor Z3 c3).getLast?.getD c3.value
        = (valueWritesFor Z2 c2).getLast?.getD c2.value
    rw [hV32]
    have hc3v : c3.value = (valueWritesFor Z2 c2).getLast?.getD c2.value := by
      rw [hc3]
      by_cases h : c2.ctype = "INPUT"
      · rw [if_pos h]
        rfl
      · rw [if_neg h, compute_fst_value]
        rfl
    rw [hc3v]
    cases (valueWritesFor Z2 c2).getLast? <;> rfl
  · rw [phase2CharFn_selected, phase2CharFn_selected]
    exact hc3s

theorem phase1Fn_id (c : Component) : (phase1Fn c).id = c.id := by
  unfold phase1Fn
  by_cases h : c.ctype = "INPUT"
  · rw [if_pos h]
  · rw [if_neg h, compute_fst_id]

theorem simulate_eq (s : State)
    (hnd : (s.components.map Component.id).Nodup)
    (hfrom : ∀ conn ∈ s.connections, ∃ f ∈ s.components, f.id = conn.fromId) :
    simulate s = { s with
      components := (s.components.map phase1Fn).map
        (phase2CharFn (s.connections.zip
          (phase2Vals (s.components.map phase1Fn) s.connections))),
      connections := setConnVals s.connections
        (phase2Vals (s.components.map phase1Fn) s.connections) } := by
  have hperm : (topologicalSort s).Perm s.components := by
    by_cases hlen : s.components.length = 0
    · have hnil := List.eq_nil_of_length_eq_zero hlen
      show (topologicalSortFuel s.components s.connections
        s.components.length).Perm s.components
      rw [hnil]
      exact List.Perm.refl []
    · exact topologicalSortFuel_perm (Nat.pos_of_ne_zero hlen) hnd
  have hph1 : simulatePhase1 (topologicalSort s) s.components
      = s.components.map phase1Fn :=
    phase1_eq_map s.components (topologicalSort s) hnd hperm
  have hnd1 : ((s.components.map phase1Fn).map Component.id).Nodup := by
    rw [List.map_map,
      show Component.id ∘ phase1Fn = Component.id from
        funext fun c => phase1Fn_id c]
    exact hnd
  have hfrom1 : ∀ conn ∈ s.connections,
      ∃ f ∈ s.components.map phase1Fn, f.id = conn.fromId := by
    intro conn hconn
    obtain ⟨f, hf, hfid⟩ := hfrom conn hconn
    exact ⟨phase1Fn f, List.mem_map_of_mem _ hf, by rw [phase1Fn_id, hfid]⟩
  obtain ⟨h1, h2, h3⟩ :=
    phase2_char (s.components.map phase1Fn) hnd1 s.connections hfrom1
  have hpair : s.connections.foldl connStep (s.components.map phase1Fn, [])
      = ((s.components.map phase1Fn).map
          (phase2CharFn (s.connections.zip
            (phase2Vals (s.components.map phase1Fn) s.connections))),
         List.zipWith (fun conn v => { conn with value := v }) s.connections
           (phase2Vals (s.components.map phase1Fn) s.connections)) := by
    rw [← h1, ← h2]
  show ({ s with
      components := (s.connections.foldl connStep
        (simulatePhase1 (topologicalSort s) s.components, [])).1,
      connections := (s.connections.foldl connStep
        (simulatePhase1 (topologicalSort s) s.components, [])).2 } : State) = _
  rw [hph1, hpair]
  rfl

theorem ids_map_eq {g : Component → Component} (hg : ∀ c, (g c).id = c.id)
    (cs : List Component) :
    (cs.map g).map Component.id = cs.map Component.id := by
  rw [List.map_map, show Component.id ∘ g = Component.id from funext fun c => hg c]

theorem simulate_fixed_from (cs0 : List Component) (P : List Conn)
    (sel : Option String)
    (hnd : (cs0.map Component.id).Nodup)
    (hfrom : ∀ conn ∈ P, ∃ f ∈ cs0, f.id = conn.fromId)
    (htopo : ConnTopo P) :
    simulate (simulate (simulate ⟨cs0, P, sel⟩)) = simulate (simulate ⟨cs0, P, sel⟩) := by
  set CS1 := cs0.map phase1Fn with hCS1def
  set VS1 := phase2Vals CS1 P with hVS1def
  set g1 : Component → Component := fun c =>
    if c.ctype = "INPUT" then phase2CharFn (P.zip VS1) c
    else (phase2CharFn (P.zip VS1) c).compute.1 with hg1def
  set A1 := CS1.map (phase2CharFn (P.zip VS1)) with hA1def
  set Q1 := setConnVals P VS1 with hQ1def
  set CS2 := A1.map phase1Fn with hCS2def
  set VS2 := phase2Vals CS2 Q1 with hVS2def
  set g2 : Component → Component := fun c =>
    if c.ctype = "INPUT" then phase2CharFn (Q1.zip VS2) c
    else (phase2CharFn (Q1.zip VS2) c).compute.1 with hg2def
  set A2 := CS2.map (phase2CharFn (Q1.zip VS2)) with hA2def
  set Q2 := setConnVals Q1 VS2 with hQ2def
  set CS3 := A2.map phase1Fn with hCS3def
  set VS3 := phase2Vals CS3 Q2 with hVS3def
  set A3 := CS3.map (phase2CharFn (Q2.zip VS3)) with hA3def
  set Q3 := setConnVals Q2 VS3 with hQ3def
  have hndCS1 : (CS1.map Component.id).Nodup := by
    rw [hCS1def, ids_map_eq phase1Fn_id cs0]
    exact hnd
  have hndA1 : (A1.map Component.id).Nodup := by
    rw [hA1def, ids_map_eq (fun c => phase2CharFn_id _ c) CS1]
    exact hndCS1
  have hndCS2 : (CS2.map Component.id).Nodup := by
    rw [hCS2def, ids_map_eq phase1Fn_id A1]
    exact hndA1
  have hndA2 : (A2.map Component.id).Nodup := by
    rw [hA2def, ids_map_eq (fun c => phase2CharFn_id _ c) CS2]
    exact hndCS2
  have hfromCS1 : ∀ conn ∈ P, ∃ f ∈ CS1, f.id = conn.fromId := by
    intro conn hconn
    obtain ⟨f, hf, hfid⟩ := hfrom conn hconn
    refine ⟨phase1Fn f, ?_, by rw [phase1Fn_id, hfid]⟩
    rw [hCS1def]
    exact List.mem_map_of_mem _ hf
  have hfromA1 : ∀ conn ∈ P, ∃ f ∈ A1, f.id = conn.fromId := by
    intro conn hconn
    obtain ⟨f, hf, hfid⟩ := hfromCS1 conn hconn
    refine ⟨phase2CharFn (P.zip VS1) f, ?_, by rw [phase2CharFn_id]; exact hfid⟩
    rw [hA1def]
    exact List.mem_map_of_mem _ hf
  have hfromQ1 : ∀ conn ∈ Q1, ∃ f ∈ A1, f.id = conn.fromId := by
    intro conn hconn
    rw [hQ1def] at hconn
    obtain ⟨c, hc, hfr, _⟩ := mem_setConnVals hconn
    obtain ⟨f, hf, hfid⟩ := hfromA1 c hc
    exact ⟨f, hf, by rw [hfid, hfr]⟩
  have hfromCS2 : ∀ conn ∈ Q1, ∃ f ∈ CS2, f.id = conn.fromId := by
    intro conn hconn
    obtain ⟨f, hf, hfid⟩ := hfromQ1 conn hconn
    refine ⟨phase1Fn f, ?_, by rw [phase1Fn_id]; exact hfid⟩
    rw [hCS2def]
    exact List.mem_map_of_mem _ hf
  have hfromA2 : ∀ conn ∈ Q1, ∃ f ∈ A2, f.id = conn.fromId := by
    intro conn hconn
    obtain ⟨f, hf, hfid⟩ := hfromCS2 conn hconn
    refine ⟨phase2CharFn (Q1.zip VS2) f, ?_, by rw [phase2CharFn_id]; exact hfid⟩
    rw [hA2def]
    exact List.mem_map_of_mem _ hf
  have hfromQ2 : ∀ conn ∈ Q2, ∃ f ∈ A2, f.id = conn.fromId := by
    intro conn hconn
    rw [hQ2def] at hconn
    obtain ⟨c, hc, hfr, _⟩ := mem_setConnVals hconn
    obtain ⟨f, hf, hfid⟩ := hfromA2 c hc
    exact ⟨f, hf, by rw [hfid, hfr]⟩
  have htopoQ1 : ConnTopo Q1 := by
    rw [hQ1def]
    exact connTopo_setConnVals htopo
  have hlen1 : VS1.length = P.length := by
    rw [hVS1def]
    exact (phase2_char CS1 hndCS1 P hfromCS1).2.2
  have hQ1len : Q1.length = P.length := by
    rw [hQ1def, setConnVals_length, hlen1]
    exact Nat.min_self _
  have hVS2len : VS2.length = Q1.length := by
    rw [hVS2def]
    exact (phase2_char CS2 hndCS2 Q1 hfromCS2).2.2
  have hQ2len : Q2.length = Q1.length := by
    rw [hQ2def, setConnVals_length, hVS2len]
    exact Nat.min_self _
  have hg1id : ∀ c, (g1 c).id = c.id := by
    intro c
    simp only [hg1def]
    by_cases h : c.ctype = "INPUT"
    · rw [if_pos h, phase2CharFn_id]
    · rw [if_neg h, compute_fst_id, phase2CharFn_id]
  have hg1ct : ∀ c, (g1 c).ctype = c.ctype := by
    intro c
    simp only [hg1def]
    by_cases h : c.ctype = "INPUT"
    · rw [if_pos h, phase2CharFn_ctype]
    · rw [if_neg h, compute_fst_ctype, phase2CharFn_ctype]
  have hg2id : ∀ c, (g2 c).id = c.id := by
    intro c
    simp only [hg2def]
    by_cases h : c.ctype = "INPUT"
    · rw [if_pos h, phase2CharFn_id]
    · rw [if_neg h, compute_fst_id, phase2CharFn_id]
  have hg2ct : ∀ c, (g2 c).ctype = c.ctype := by
    intro c
    simp only [hg2def]
    by_cases h : c.ctype = "INPUT"
    · rw [if_pos h, phase2CharFn_ctype]
    · rw [if_neg h, compute_fst_ctype, phase2CharFn_ctype]
  have hCS2eq : CS2 = CS1.map g1 := by
    rw [hCS2def, hA1def, List.map_map]
    exact List.map_congr_left fun c _ => by rw [hg1def]; rfl
  have halign1 : phase2Vals (CS1.map g1) Q1 = VS1 := by
    have h := phase2Vals_align CS1 hndCS1 P hfromCS1 htopo g1
      (fun c => by rw [hg1def]) P.length
    rw [← hVS1def, ← hQ1def] at h
    rw [List.take_of_length_le (le_of_eq hQ1len),
      List.take_of_length_le (le_of_eq hlen1)] at h
    exact h
  have hvs2 : VS2 = VS1 := by
    rw [hVS2def, hCS2eq]
    exact halign1
  have hCS3eq : CS3 = CS2.map g2 := by
    rw [hCS3def, hA2def, List.map_map]
    exact List.map_congr_left fun c _ => by rw [hg2def]; rfl
  have hvs3 : VS3 = VS2 := by
    have h := phase2Vals_align CS2 hndCS2 Q1 hfromCS2 htopoQ1 g2
      (fun c => by rw [hg2def]) Q1.length
    rw [← hVS2def, ← hQ2def] at h
    rw [List.take_of_length_le (le_of_eq hQ2len),
      List.take_of_length_le (le_of_eq hVS2len)] at h
    rw [hVS3def, hCS3eq]
    exact h
  have hk21 : (Q1.zip VS2).map connKey = (P.zip VS1).map connKey := by
    rw [hvs2, hQ1def]
    exact connKey_setConnVals_zip P VS1 VS1 hlen1
  have hk32 : (Q2.zip VS3).map connKey = (Q1.zip VS2).map connKey := by
    rw [hvs3, hQ2def]
    exact connKey_setConnVals_zip Q1 VS2 VS2 hVS2len
  have hA32 : A3 = A2 := by
    rw [hA3def, hA2def, hCS3eq, hCS2eq, hCS1def]
    simp only [List.map_map]
    refine List.map_congr_left fun c0 hc0 => ?_
    show phase2CharFn (Q2.zip VS3) (g2 (g1 (phase1Fn c0)))
        = phase2CharFn (Q1.zip VS2) (g1 (phase1Fn c0))
    exact run_element_stable (P.zip VS1) (Q1.zip VS2) (Q2.zip VS3)
      (phase1Fn c0) (g1 (phase1Fn c0)) (g2 (g1 (phase1Fn c0)))
      (by rw [hg1def]) (by rw [hg2def])
      (inputWritesFor_congr hk21 (hg1id _) (hg1ct _))
      (valueWritesFor_congr hk21 (hg1id _) (hg1ct _))
      (inputWritesFor_congr hk32 (hg2id _) (hg2ct _))
      (valueWritesFor_congr hk32 (hg2id _) (hg2ct _))
      (outWritesFor_congr hk32 (hg2id _) (hg2ct _))
  have hQ32 : Q3 = Q2 := by
    rw [hQ3def, hvs3, hQ2def, setConnVals_setConnVals Q1 VS2 VS2 hVS2len]
  have e1 : simulate ⟨cs0, P, sel⟩ = ⟨A1, Q1, sel⟩ :=
    simulate_eq ⟨cs0, P, sel⟩ hnd hfrom
  have e2 : simulate ⟨A1, Q1, sel⟩ = ⟨A2, Q2, sel⟩ :=
    simulate_eq ⟨A1, Q1, sel⟩ hndA1 hfromQ1
  have e3 : simulate ⟨A2, Q2, sel⟩ = ⟨A3, Q3, sel⟩ :=
    simulate_eq ⟨A2, Q2, sel⟩ hndA2 hfromQ2
  rw [e1, e2, e3, hA32, hQ32]

theorem connTopo_dec (conns : List Conn)
    (h : ∀ p : Fin conns.length × Fin conns.length,
      (conns.get p.1).toId = (conns.get p.2).fromId → p.1.val < p.2.val) :
    ConnTopo conns :=
  fun i j hi hj heq => h (⟨i, hi⟩, ⟨j, hj⟩) heq

/-- C1 (amended): `simulate()` is not idempotent from a fresh state, but
the state reached after two calls is a fixed point: on every circuit
whose component ids are distinct, whose connections name existing source
components, and whose connection list is in dependency order (every
connection into a component precedes every connection out of it), a
third `simulate()` call changes no component field and no connection
value. -/
theorem simulate_second_call_fixed_point (s : State)
    (hnd : (s.components.map Component.id).Nodup)
    (hfrom : ∀ conn ∈ s.connections, ∃ f ∈ s.components, f.id = conn.fromId)
    (htopo : ConnTopo s.connections) :
    simulate (simulate (simulate s)) = simulate (simulate s) :=
  simulate_fixed_from s.components s.connections s.selectedId hnd hfrom htopo

/-- Witness for C1: the dependency-ordered chain
`INPUT A (toggled on) → NOT n1 → NOT n2` satisfies the hypotheses, and
the theorem applies: its third `simulate()` is its second. -/
theorem simulate_second_call_fixed_point_witness :
    (((c2Build.toOption.getD emptyState).components.map Component.id).Nodup
      ∧ (∀ conn ∈ (c2Build.toOption.getD emptyState).connections,
          ∃ f ∈ (c2Build.toOption.getD emptyState).components,
            f.id = conn.fromId))
    ∧ simulate (simulate (simulate (c2Build.toOption.getD emptyState)))
        = simulate (simulate (c2Build.toOption.getD emptyState)) :=
  ⟨⟨by decide, by decide⟩,
    simulate_second_call_fixed_point (c2Build.toOption.getD emptyState)
      (by decide) (by decide) (connTopo_dec _ (by decide))⟩
